import Mathlib

/-! The LLVM type converter of vast.

A shallow embedding of `include/vast/Conversion/TypeConverters/LLVMTypeConverter.hpp`
(the structs `LLVMTypeConverter` and `FullLLVMTypeConverter`) together with the
properties of its conversion routines.

* `mlir::Type` is the inductive type `MType`: the variants the converter has a
  handler for, the LLVM dialect types the handlers build, and an opaque
  variant for every other type.
* A routine of the converter either returns or aborts the run (a failed
  `VAST_ASSERT`, a reached `VAST_UNREACHABLE`): this is `Exec`. A routine that
  returns `maybe_type_t` / `maybe_types_t` has type `Exec (Option _)`, and
  `returns none` is the absent result.
* The conversions inherited from `mlir::LLVMTypeConverter` and the identified
  structs of the MLIR context are external to the repository and are fields
  of `TypeConverter`.
-/

namespace vast

/-- The two ways a conversion routine stops the run instead of returning.

Modelled from the spec: the macros `VAST_ASSERT` and `VAST_UNREACHABLE` are not
among the sources; "fatal/unreachable conditions abort immediately with a
developer-facing message". -/
inductive Fault where
  | assertion
  | unreachable
  deriving DecidableEq

/-- Outcome of running a routine: it returns a value, or the run is aborted. -/
inductive Exec (α : Type) where
  | returns (a : α)
  | aborts (f : Fault)

/-- The types of `mlir::Type` the converter meets and builds.

The bound of `llvmArray` is the `unsigned` bound of `LLVM::LLVMArrayType::get`;
`llvmStruct` is an identified struct, which MLIR identifies by its name. -/
inductive MType where
  /-- Any type that is none of the variants below (builtin integers and
  floats, literal structs, types of other dialects), by an opaque id. -/
  | other (id : Nat)
  /-- The type `hl::LabelType`. -/
  | label
  /-- The type `hl::DecayedType`. -/
  | decayed (elem : MType)
  /-- The type `hl::LValueType`. -/
  | lvalue (elem : MType)
  /-- The type `hl::PointerType`. -/
  | pointer (elem : MType)
  /-- The type `mlir::MemRefType`, with `getShape()` and `getElementType()`. -/
  | memref (shape : List Int) (elem : MType)
  /-- The type `mlir::UnrankedMemRefType`. -/
  | unrankedMemref (elem : MType)
  /-- The type `hl::RecordType`, with `getName()`. -/
  | record (name : String)
  /-- The type `hl::ElaboratedType`. -/
  | elaborated (elem : MType)
  /-- The type `core::FunctionType`, with `getInputs()`, `getResults()`, `isVarArg()`. -/
  | fn (inputs : List MType) (results : List MType) (isVarArg : Bool)
  /-- The type `mlir::NoneType`. -/
  | noneType
  /-- The type `LLVM::LLVMVoidType`. -/
  | llvmVoid
  /-- The type `LLVM::LLVMPointerType::get(elem)`. -/
  | llvmPtr (elem : MType)
  /-- The type `LLVM::LLVMArrayType::get(elem, numElements)`. -/
  | llvmArray (elem : MType) (numElements : Nat)
  /-- The type `LLVM::LLVMStructType` identified by `name`. -/
  | llvmStruct (name : String)
  /-- The type `LLVM::LLVMFunctionType::get(result, params, isVarArg)`. -/
  | llvmFn (result : MType) (params : List MType) (isVarArg : Bool)

abbrev types_t := List MType
abbrev maybe_type_t := Option MType
abbrev maybe_types_t := Option types_t

/-- The converter's own entry `this->convertTypes(t, out)`: the types written
to `out` on success, absent on failure. Every routine below takes it as its
first argument. -/
abbrev ConvertTypes := MType → Exec maybe_types_t

/-! ## Nesting depth of a type -/

mutual
/-- Nesting depth of a type: how many variants are stacked above its deepest leaf. -/
def MType.depth : MType → Nat
  | .other _ => 0
  | .label => 0
  | .decayed e => e.depth + 1
  | .lvalue e => e.depth + 1
  | .pointer e => e.depth + 1
  | .memref _ e => e.depth + 1
  | .unrankedMemref e => e.depth + 1
  | .record _ => 0
  | .elaborated e => e.depth + 1
  | .fn ins outs _ => max (depthList ins) (depthList outs) + 1
  | .noneType => 0
  | .llvmVoid => 0
  | .llvmPtr e => e.depth + 1
  | .llvmArray e _ => e.depth + 1
  | .llvmStruct _ => 0
  | .llvmFn r ps _ => max r.depth (depthList ps) + 1
/-- Largest nesting depth among the types of a list. -/
def depthList : List MType → Nat
  | [] => 0
  | t :: ts => max t.depth (depthList ts)
end

/-! ## The optional-chain combinator (`vast/Util/Maybe.hpp`) -/

namespace Maybe

/-- Modelled from the spec: the constructor `Maybe(value)` of the optional-chain
combinator (`vast/Util/Maybe.hpp` is not among the sources), "present(value)". -/
def wrap {α : Type} (a : α) : Exec (Option α) := .returns (some a)

/-- Modelled from the spec: `and_then(f)` of the optional-chain combinator, "if
present, apply `f` to the contained value(s) and rewrap; if absent, propagate
absence without invoking `f`". A run aborted inside `f` stays aborted. -/
def and_then {α β : Type} (m : Exec (Option α)) (f : α → Exec β) : Exec (Option β) :=
  match m with
  | .returns (some a) =>
    match f a with
    | .returns b => .returns (some b)
    | .aborts e => .aborts e
  | .returns none => .returns none
  | .aborts e => .aborts e

/-- Modelled from the spec: `unwrap()` of the optional-chain combinator, "for a
sequence-of-one-element case, project down to the scalar before continuing a
scalar-only chain"; the contained value is the optional result handed back by
the previous step ("`f` may itself return absent, causing short-circuit"). -/
def unwrap {α : Type} (m : Exec (Option (Option α))) : Exec (Option α) :=
  match m with
  | .returns (some (some a)) => .returns (some a)
  | .returns (some none) => .returns none
  | .returns none => .returns none
  | .aborts e => .aborts e

/-- Modelled from the spec: `take_wrapped<Target>()` of the optional-chain
combinator, the "terminal operation converting the chain's internal
representation into the caller's expected result shape (scalar-or-absent, or
sequence-or-absent)". -/
def take_wrapped {α : Type} (m : Exec (Option α)) : Exec (Option α) := m

end Maybe

/-! ## The conversion helpers of `tc::mixins` -/

/-- The routine `LLVMTypeConverter::do_conversion`: the output of
`convertTypes` when it succeeded, absent otherwise. -/
def do_conversion (convertTypes : ConvertTypes) (t : MType) : Exec maybe_types_t :=
  convertTypes t

/-- Modelled from the spec: `convert_type_to_types` of `tc::mixins`
(`TypeConverter.hpp` is not among the sources), "`convert_to_types(type) ->
sequence-or-absent`": the conversion result of the type as a sequence. -/
def convert_type_to_types (convertTypes : ConvertTypes) (t : MType) : Exec maybe_types_t :=
  do_conversion convertTypes t

/-- Modelled from the spec: `convert_type_to_type` of `tc::mixins`
(`TypeConverter.hpp` is not among the sources): the conversion result as a
"single type" when the sequence has one element, "no result" otherwise. -/
def convert_type_to_type (convertTypes : ConvertTypes) (t : MType) : Exec maybe_type_t :=
  match convert_type_to_types convertTypes t with
  | .returns (some [ty]) => .returns (some ty)
  | .returns _ => .returns none
  | .aborts e => .aborts e

/-- Modelled from the spec: `appender(out)` of `tc::mixins`: the converted
types are added at the end of `out`, "order is significant". -/
def appender (out : types_t) (collection : types_t) : types_t := out ++ collection

/-! ## `LLVMTypeConverter` -/

/-- The lambda of `make_ptr_type`: `VAST_ASSERT(!t.isa< mlir::NoneType >())`,
then `LLVM::LLVMPointerType::get(t)`. -/
def make_ptr_type (t : MType) : Exec MType :=
  match t with
  | .noneType => .aborts .assertion
  | t => .returns (.llvmPtr t)

/-- The routine `convert_decayed`: `VAST_UNREACHABLE`, which aborts the run
("fatal/unreachable conditions abort immediately"); the `return {}` behind it
is never reached. -/
def convert_decayed (_t : MType) : Exec maybe_type_t := .aborts .unreachable

/-- The routine `convert_lvalue_type`, on the lvalue type with element type `elem`. -/
def convert_lvalue_type (convertTypes : ConvertTypes) (elem : MType) : Exec maybe_type_t :=
  Maybe.take_wrapped
    (Maybe.and_then
      (Maybe.unwrap (Maybe.and_then (Maybe.wrap elem) (convert_type_to_type convertTypes)))
      make_ptr_type)

/-- The routine `convert_pointer_type`, on the pointer type with element type `elem`. -/
def convert_pointer_type (convertTypes : ConvertTypes) (elem : MType) : Exec maybe_type_t :=
  Maybe.take_wrapped
    (Maybe.and_then
      (Maybe.unwrap (Maybe.and_then (Maybe.wrap elem) (convert_type_to_type convertTypes)))
      make_ptr_type)

/-- The conversion of an `int64_t` shape entry to the `unsigned` bound that
`LLVM::LLVMArrayType::get` takes: the entry modulo 2^32. -/
def to_unsigned (d : Int) : Nat := (d % 4294967296).toNat

/-- The loop of `make_array`, `for (int i = shape.size() - 2; i >= 0; --i)
out = LLVM::LLVMArrayType::get(out, shape[i])`, with `k = i + 1` iterations
left; reading `shape[i]` outside the shape aborts, and the entry read is
narrowed to the `unsigned` bound. -/
def make_array.loop (shape : List Int) : Nat → MType → Exec MType
  | 0, out => .returns out
  | i + 1, out =>
    match shape[i]? with
    | some d => make_array.loop shape i (.llvmArray out (to_unsigned d))
    | none => .aborts .assertion

/-- The lambda of `make_array(shape)`: `shape.back()`, narrowed to the
`unsigned` bound, is the bound of the array built first, around the element
type; `back()` of an empty shape aborts. -/
def make_array (shape : List Int) (t : MType) : Exec MType :=
  match shape.getLast? with
  | none => .aborts .assertion
  | some back => make_array.loop shape (shape.length - 1) (.llvmArray t (to_unsigned back))

/-- The routine `convert_memref_type(mlir::MemRefType)`. -/
def convert_memref_type (convertTypes : ConvertTypes) (shape : List Int) (elem : MType) :
    Exec maybe_type_t :=
  Maybe.take_wrapped
    (Maybe.and_then
      (Maybe.unwrap (Maybe.and_then (Maybe.wrap elem) (convert_type_to_type convertTypes)))
      (make_array shape))

/-- The routine `convert_memref_type(mlir::UnrankedMemRefType)`: `return {}`. -/
def convert_unranked_memref_type (_elem : MType) : Exec maybe_type_t := .returns none

/-- The routine `convert_arg_t`. -/
def convert_arg_t (convertTypes : ConvertTypes) (t : MType) : Exec maybe_types_t :=
  match t with
  | .lvalue elem => convert_type_to_types convertTypes elem
  | t => convert_type_to_types convertTypes t

/-- The routine `convert_ret_t`. -/
def convert_ret_t (convertTypes : ConvertTypes) (t : MType) : Exec maybe_types_t :=
  match t with
  | .lvalue elem => convert_type_to_types convertTypes elem
  | t => convert_type_to_types convertTypes t

/-- The loop of `on_types`, with the types collected so far in `out`: the
first type that `fn` does not convert ends the loop with `return {}`. -/
def on_types.loop (fn : MType → Exec maybe_types_t) : List MType → types_t → Exec maybe_types_t
  | [], out => .returns (some out)
  | t :: ts, out =>
    match fn t with
    | .returns (some cty) => on_types.loop fn ts (appender out cty)
    | .returns none => .returns none
    | .aborts e => .aborts e

/-- The routine `on_types(range, fn)`. -/
def on_types (range : List MType) (fn : MType → Exec maybe_types_t) : Exec maybe_types_t :=
  on_types.loop fn range []

/-- The routine `convert_fn_t`, on the function type with the given inputs,
results and variadic flag. Both `on_types` calls run before the test
`!a_res || !r_res`; `VAST_ASSERT(r_res->size() <= 1)` comes after it. -/
def convert_fn_t (convertTypes : ConvertTypes) (inputs results : List MType) (isVarArg : Bool) :
    Exec maybe_type_t :=
  match on_types inputs (convert_arg_t convertTypes) with
  | .aborts e => .aborts e
  | .returns a_res =>
    match on_types results (convert_ret_t convertTypes) with
    | .aborts e => .aborts e
    | .returns r_res =>
      match a_res, r_res with
      | some a, some r =>
        if r.length ≤ 1 then
          match r with
          | [] => .returns (some (.llvmFn .llvmVoid a isVarArg))
          | front :: _ => .returns (some (.llvmFn front a isVarArg))
        else .aborts .assertion
      | _, _ => .returns none

/-! ## `FullLLVMTypeConverter` -/

/-- The routine `convert_elaborated_type`. -/
def convert_elaborated_type (convertTypes : ConvertTypes) (elem : MType) : Exec maybe_type_t :=
  convert_type_to_type convertTypes elem

/-- The routine `convert_record_type`. `getIdentified name` is the name carried
by the struct that `LLVM::LLVMStructType::getIdentified(&mctx, name)` hands
back, absent for a null type. -/
def convert_record_type (getIdentified : String → Option String) (name : String) :
    Exec maybe_type_t :=
  match getIdentified name with
  | none => .returns none
  | some raw => if raw ≠ name then .returns none else .returns (some (.llvmStruct raw))

/-! ## The registered conversions and their dispatch -/

/-- The conversions registered with `addConversion` by the two constructors,
one name for each lambda. -/
inductive Handler where
  | label
  | decayed
  | lvalue
  | pointer
  | memref
  | unrankedMemref
  | fn
  | noneType
  | record
  | elaborated
  deriving DecidableEq

/-- A type converter: the conversions registered on top of the inherited ones,
in registration order, and the two external collaborators.

* `inherited t` is the outcome of the conversions inherited from
  `mlir::LLVMTypeConverter` on `t`: the id of the (opaque) type they produce,
  if any of them applies;
* `getIdentified name` is the name carried by the identified struct that the
  MLIR context hands back for `name`, if it hands back one. -/
structure TypeConverter where
  conversions : List Handler
  inherited : MType → Option Nat
  getIdentified : String → Option String

/-- The types of vast's own dialects (`hl`, `core`); no conversion inherited
from `mlir::LLVMTypeConverter` applies to them. -/
def MType.isVastType : MType → Bool
  | .label => true
  | .decayed _ => true
  | .lvalue _ => true
  | .pointer _ => true
  | .record _ => true
  | .elaborated _ => true
  | .fn _ _ _ => true
  | _ => false

/-- One registered conversion applied to a type: the lambda handed to
`addConversion`. A lambda does not apply to a type of another kind, and one
that returns an empty optional leaves the type to the next conversion: both
are `returns none`. -/
def Handler.apply (getIdentified : String → Option String) (convertTypes : ConvertTypes) :
    Handler → MType → Exec maybe_type_t
  | .label, .label => .returns (some .label)
  | .decayed, .decayed e => convert_decayed (.decayed e)
  | .lvalue, .lvalue e => convert_lvalue_type convertTypes e
  | .pointer, .pointer e => convert_pointer_type convertTypes e
  | .memref, .memref shape e => convert_memref_type convertTypes shape e
  | .unrankedMemref, .unrankedMemref e => convert_unranked_memref_type e
  | .fn, .fn ins outs va => convert_fn_t convertTypes ins outs va
  | .noneType, .noneType => .returns (some .llvmVoid)
  | .record, .record name => convert_record_type getIdentified name
  | .elaborated, .elaborated e => convert_elaborated_type convertTypes e
  | _, _ => .returns none

/-- The loop of `mlir::TypeConverter::convertType` over the conversions still
to try: the first one that produces a type decides; when none is left the
inherited conversions are consulted, and the conversion fails if they have
nothing either. -/
def TypeConverter.convertType.loop (c : TypeConverter) (convertTypes : ConvertTypes) (t : MType) :
    List Handler → Exec maybe_types_t
  | [] =>
    if t.isVastType then .returns none
    else
      match c.inherited t with
      | some k => .returns (some [.other k])
      | none => .returns none
  | h :: hs =>
    match h.apply c.getIdentified convertTypes t with
    | .returns (some ty) => .returns (some [ty])
    | .returns none => TypeConverter.convertType.loop c convertTypes t hs
    | .aborts e => .aborts e

/-- One step of the dispatch: the registered conversions are tried from the
most recently registered one back to the first. -/
def TypeConverter.convertType (c : TypeConverter) (convertTypes : ConvertTypes) (t : MType) :
    Exec maybe_types_t :=
  TypeConverter.convertType.loop c convertTypes t c.conversions.reverse

/-- The dispatch with the recursion into element types cut off below `n` levels. -/
def TypeConverter.convertTypesAux (c : TypeConverter) : Nat → ConvertTypes
  | 0 => fun _ => .returns none
  | n + 1 => fun t => c.convertType (c.convertTypesAux n) t

/-- The conversion entry `convertTypes` of the converter: the dispatch, which
recurses into the element types through the handlers; the recursion is on
the nesting depth of the type (`TypeConverter.convertTypes_eq` is its
defining equation). -/
def TypeConverter.convertTypes (c : TypeConverter) : ConvertTypes :=
  fun t => c.convertTypesAux (t.depth + 1) t

/-- The conversions registered by the constructor of `LLVMTypeConverter`, in
registration order. -/
def LLVMTypeConverter (inherited : MType → Option Nat) (getIdentified : String → Option String) :
    TypeConverter :=
  ⟨[.label, .decayed, .lvalue, .pointer, .memref, .unrankedMemref, .fn, .noneType],
    inherited, getIdentified⟩

/-- The conversions registered by the constructor of `FullLLVMTypeConverter`:
those of its base `LLVMTypeConverter`, then the record and the elaborated one. -/
def FullLLVMTypeConverter (inherited : MType → Option Nat)
    (getIdentified : String → Option String) : TypeConverter :=
  ⟨(LLVMTypeConverter inherited getIdentified).conversions ++ [.record, .elaborated],
    inherited, getIdentified⟩

/-! ## `get_conversion_signature` -/

/-- The class `mlir::TypeConverter::SignatureConversion`, as far as the
converter uses it: one slot for each argument of the function, holding the
types recorded for it by `addInputs`, and the converted argument types in the
order they were added. -/
structure signature_conversion_t where
  remappedInputs : List (Option types_t)
  argTypes : types_t

/-- The constructor `signature_conversion_t(numOrigInputs)`: no argument is
remapped yet. -/
def signature_conversion_t.create (numOrigInputs : Nat) : signature_conversion_t :=
  ⟨List.replicate numOrigInputs none, []⟩

/-- The call `conversion.addInputs(origInputNo, types)`. -/
def signature_conversion_t.addInputs (conversion : signature_conversion_t) (origInputNo : Nat)
    (types : types_t) : signature_conversion_t :=
  ⟨conversion.remappedInputs.set origInputNo (some types), conversion.argTypes ++ types⟩

/-- The types recorded for the argument `origInputNo`, if it was remapped. -/
def signature_conversion_t.getInputMapping (conversion : signature_conversion_t)
    (origInputNo : Nat) : Option types_t :=
  match conversion.remappedInputs[origInputNo]? with
  | some (some types) => some types
  | _ => none

/-- A function seen through `mlir::FunctionOpInterface`: its type. -/
structure FunctionOpInterface where
  getFunctionType : MType

/-- The call `fn.getNumArguments()`: the number of inputs of the function type. -/
def FunctionOpInterface.getNumArguments (fn : FunctionOpInterface) : Nat :=
  match fn.getFunctionType with
  | .fn inputs _ _ => inputs.length
  | .llvmFn _ params _ => params.length
  | _ => 0

/-- The loop of `get_conversion_signature` over `llvm::enumerate(fn_type.getInputs())`,
at the input with index `index`: the first input that `convert_arg_t` does not
convert ends it with `return {}`. -/
def get_conversion_signature.loop (convertTypes : ConvertTypes) :
    List MType → Nat → signature_conversion_t → Exec (Option signature_conversion_t)
  | [], _, conversion => .returns (some conversion)
  | t :: ts, index, conversion =>
    match convert_arg_t convertTypes t with
    | .returns (some cty) =>
      get_conversion_signature.loop convertTypes ts (index + 1) (conversion.addInputs index cty)
    | .returns none => .returns none
    | .aborts e => .aborts e

/-- The routine `get_conversion_signature(fn, variadic)`; `VAST_ASSERT(fn_type)`
aborts when the type of the function is not a `core::FunctionType`. -/
def get_conversion_signature (convertTypes : ConvertTypes) (fn : FunctionOpInterface)
    (_variadic : Bool) : Exec (Option signature_conversion_t) :=
  match fn.getFunctionType with
  | .fn inputs _ _ =>
    get_conversion_signature.loop convertTypes inputs 0
      (signature_conversion_t.create fn.getNumArguments)
  | _ => .aborts .assertion

/-! ## The pipelines (`lib/vast/Conversion/FromHL/Passes.cpp`,
`lib/vast/Dialect/HighLevel/Passes.cpp`) -/

/-- The pass constructors that the pipeline steps hand to `pass(...)`. -/
inductive PassCtor where
  | createHLToHLBI
  | createHLToLLCFPass
  | createHLToLLGEPsPass
  | createHLToLLVarsPass
  | createHLEmitLazyRegionsPass
  | createHLToLLFuncPass
  | createFnArgsToAllocaPass
  | createLowerValueCategoriesPass
  | createSpliceTrailingScopes
  | createLowerTypeDefsPass
  | createLowerElaboratedTypesPass
  | createDCEPass
  | createUDEPass
  | createHLLowerTypesPass
  deriving DecidableEq

/-- The functions of `vast::conv::pipeline` and `vast::hl::pipeline` that build
a pipeline step; a step names its children and prerequisites by these. -/
inductive pipeline_step_builder where
  | to_hlbi
  | hl_to_ll_cf
  | hl_to_ll_geps
  | hl_to_ll_vars
  | lazy_regions
  | hl_to_ll_func
  | fn_args_to_alloca
  | lower_value_categories
  | to_ll
  | splice_trailing_scopes
  | canonicalize
  | lower_typedefs
  | lower_elaborated_types
  | desugar
  | dce
  | ude
  | simplify
  | stdtypes
  deriving DecidableEq

/-- Modelled from the spec: the two kinds of pipeline step (`vast/Util/Pipeline.hpp`
is not among the sources), the "leaf pass" that "wraps a single lowering
transformation" and the "composite", "a named group of child steps ...
combined in the order listed". -/
inductive pipeline_step_kind where
  | pass (p : PassCtor)
  | compose (name : String) (steps : List pipeline_step_builder)

/-- Modelled from the spec: a pipeline step, of one of the two kinds, with the
"prerequisite steps" it declares "via `depends_on`". -/
structure pipeline_step where
  kind : pipeline_step_kind
  dependencies : List pipeline_step_builder

/-- Modelled from the spec: `pass(p)`, a leaf pass without prerequisites. -/
def pass (p : PassCtor) : pipeline_step := ⟨.pass p, []⟩

/-- Modelled from the spec: `compose(name, steps...)`, a composite without
prerequisites. -/
def compose (name : String) (steps : List pipeline_step_builder) : pipeline_step :=
  ⟨.compose name steps, []⟩

/-- Modelled from the spec: `step.depends_on(deps...)`, the step with the
prerequisites added. -/
def pipeline_step.depends_on (step : pipeline_step) (deps : List pipeline_step_builder) :
    pipeline_step :=
  ⟨step.kind, step.dependencies ++ deps⟩

/-- The bodies of the step-building functions of the two `Passes.cpp` files. -/
def pipeline_step_builder.build : pipeline_step_builder → pipeline_step
  | .to_hlbi => pass .createHLToHLBI
  | .hl_to_ll_cf => pass .createHLToLLCFPass
  | .hl_to_ll_geps => pass .createHLToLLGEPsPass
  | .hl_to_ll_vars => pass .createHLToLLVarsPass
  | .lazy_regions => pass .createHLEmitLazyRegionsPass
  | .hl_to_ll_func => pass .createHLToLLFuncPass
  | .fn_args_to_alloca => pass .createFnArgsToAllocaPass
  | .lower_value_categories => pass .createLowerValueCategoriesPass
  | .to_ll =>
    compose "to-ll" [.hl_to_ll_func, .hl_to_ll_vars, .hl_to_ll_cf, .hl_to_ll_geps,
      .fn_args_to_alloca, .lower_value_categories, .lazy_regions]
  | .splice_trailing_scopes => pass .createSpliceTrailingScopes
  | .canonicalize => pass .createSpliceTrailingScopes -- `return splice_trailing_scopes();`
  | .lower_typedefs => pass .createLowerTypeDefsPass
  | .lower_elaborated_types => pass .createLowerElaboratedTypesPass
  | .desugar => (compose "desugar" [.lower_typedefs]).depends_on [.lower_elaborated_types]
  | .dce => (pass .createDCEPass).depends_on [.canonicalize]
  | .ude => (pass .createUDEPass).depends_on [.canonicalize]
  | .simplify => compose "simplify" [.to_hlbi, .ude, .dce, .desugar]
  | .stdtypes => (pass .createHLLowerTypesPass).depends_on [.desugar]

/-- Modelled from the spec: the identity of a step, by which the visited-set
is keyed: the pass of a leaf, the name of a composite. -/
inductive step_identity where
  | pass (p : PassCtor)
  | composite (name : String)
  deriving DecidableEq

/-- Modelled from the spec: the identity of the step a builder builds. -/
def pipeline_step.identity (step : pipeline_step) : step_identity :=
  match step.kind with
  | .pass p => .pass p
  | .compose name _ => .composite name

/-- The ways plan construction ends without a plan: a step "reachable from
itself", or the recursion bound reached. -/
inductive plan_error where
  | cycle
  | depth
  deriving DecidableEq

/-- The plan under construction: the steps already placed (the visited-set)
and the "flat ordered sequence of leaf passes". -/
structure plan_state where
  visited : List step_identity
  passes : List PassCtor

/-- Scheduling a list of steps one after the other with `visit`, stopping at
the first error. -/
def schedule_all (visit : pipeline_step_builder → plan_state → Except plan_error plan_state) :
    List pipeline_step_builder → plan_state → Except plan_error plan_state
  | [], st => .ok st
  | b :: bs, st =>
    match visit b st with
    | .ok st1 => schedule_all visit bs st1
    | .error e => .error e

/-- Modelled from the spec: the plan-building traversal, "depth-first ...
visit declared prerequisites before the step itself, then (for composites)
visit children in declared order", with "a visited-set keyed by step identity;
a step already placed in the plan is never placed again"; a step met again
while it is still being expanded (`path`) "is reachable from itself", which is
"fatal at plan-construction time". The first argument bounds the depth of the
traversal. -/
def schedule_on : Nat → List step_identity → pipeline_step_builder → plan_state →
    Except plan_error plan_state
  | 0, _, _, _ => .error .depth
  | fuel + 1, path, b, st =>
    if b.build.identity ∈ path then .error .cycle
    else if b.build.identity ∈ st.visited then .ok st
    else
      match schedule_all (schedule_on fuel (b.build.identity :: path)) b.build.dependencies st
      with
      | .error e => .error e
      | .ok st1 =>
        match b.build.kind with
        | .pass p => .ok ⟨b.build.identity :: st1.visited, st1.passes ++ [p]⟩
        | .compose _ steps =>
          match schedule_all (schedule_on fuel (b.build.identity :: path)) steps st1 with
          | .error e => .error e
          | .ok st2 => .ok ⟨b.build.identity :: st2.visited, st2.passes⟩

/-- Modelled from the spec: the execution plan of a requested step, "a flat
ordered sequence of leaf passes". No traversal is deeper than the number of
step-building functions, which is the bound given to `schedule_on`. -/
def execution_plan (b : pipeline_step_builder) : Except plan_error (List PassCtor) :=
  match schedule_on 18 [] b ⟨[], []⟩ with
  | .ok st => .ok st.passes
  | .error e => .error e

/-! ## Declarations of the code generator (`include/vast/Translation/CodeGenBuilder.hpp`) -/

/-- An `mlir::Location`, by an opaque token. -/
abbrev Location := Nat

/-- The operation `TypeDeclOp`: the arguments it was created with, and `id`,
which tells the operations the builder created apart. -/
structure TypeDeclOp where
  id : Nat
  loc : Location
  name : String

/-- The operation `TypeDefOp`. -/
structure TypeDefOp where
  id : Nat
  loc : Location
  name : String
  type : MType

/-- The operation `EnumDeclOp`; `constants` stands for the `BuilderCallback`. -/
structure EnumDeclOp where
  id : Nat
  loc : Location
  name : String
  type : MType
  constants : Nat

/-- The operation `EnumConstantOp`, with `name()`. -/
structure EnumConstantOp where
  id : Nat
  name : String

/-- The type `mlir::LogicalResult`. -/
inductive logical_result where
  | success
  | failure
  deriving DecidableEq

/-- Modelled from the spec: a declaration table of the code-generator context
(`CodeGenContext.hpp` is not among the sources), "a scoped symbol table ...
with declare/lookup operations returning a success/already-exists outcome":
the registrations, oldest first. -/
abbrev symbol_table (α : Type) := List (String × α)

/-- Modelled from the spec: `table.lookup(name)`, the declaration registered
under the name, if there is one. -/
def symbol_table.lookup {α : Type} : symbol_table α → String → Option α
  | [], _ => none
  | (n, v) :: rest, name => if n = name then some v else symbol_table.lookup rest name

/-- Modelled from the spec: `table.declare(name, value)`: it fails and leaves
the table as it is when the name is registered already ("the first
registration wins"), and registers the value otherwise. -/
def symbol_table.declare {α : Type} (table : symbol_table α) (name : String) (value : α) :
    logical_result × symbol_table α :=
  match symbol_table.lookup table name with
  | some _ => (.failure, table)
  | none => (.success, table ++ [(name, value)])

/-- The part of the code-generator context that the declaring routines use:
the four declaration tables and the diagnostics reported through `error`. -/
structure CodeGenContext where
  type_decls : symbol_table TypeDeclOp
  type_defs : symbol_table TypeDefOp
  enum_decls : symbol_table EnumDeclOp
  enum_constants : symbol_table EnumConstantOp
  errors : List String

/-- Modelled from the spec: `context().error(message)`, a message handed to the
"diagnostics channel". -/
def CodeGenContext.error (ctx : CodeGenContext) (message : String) : CodeGenContext :=
  ⟨ctx.type_decls, ctx.type_defs, ctx.enum_decls, ctx.enum_constants, ctx.errors ++ [message]⟩

/-- The state behind `CodeGenBuilderMixin`: the number of operations that
`op_builder()` created so far, and the context. -/
structure CodeGenBuilderMixin where
  created : Nat
  context : CodeGenContext

/-- The routine `declare_type`. -/
def declare_type (b : CodeGenBuilderMixin) (loc : Location) (name : String) :
    TypeDeclOp × CodeGenBuilderMixin :=
  match symbol_table.lookup b.context.type_decls name with
  | some decl => (decl, b)
  | none =>
    let decl : TypeDeclOp := ⟨b.created, loc, name⟩
    match symbol_table.declare b.context.type_decls name decl with
    | (.failure, table) =>
      (decl, ⟨b.created + 1,
        CodeGenContext.error
          ⟨table, b.context.type_defs, b.context.enum_decls, b.context.enum_constants,
            b.context.errors⟩
          "error: multiple type declarations with the same name"⟩)
    | (.success, table) =>
      (decl, ⟨b.created + 1,
        ⟨table, b.context.type_defs, b.context.enum_decls, b.context.enum_constants,
          b.context.errors⟩⟩)

/-- The routine `define_type`. -/
def define_type (b : CodeGenBuilderMixin) (loc : Location) (type : MType) (name : String) :
    TypeDefOp × CodeGenBuilderMixin :=
  match symbol_table.lookup b.context.type_defs name with
  | some d => (d, b)
  | none =>
    let d : TypeDefOp := ⟨b.created, loc, name, type⟩
    match symbol_table.declare b.context.type_defs name d with
    | (.failure, table) =>
      (d, ⟨b.created + 1,
        CodeGenContext.error
          ⟨b.context.type_decls, table, b.context.enum_decls, b.context.enum_constants,
            b.context.errors⟩
          "error: multiple type definitions with the same name"⟩)
    | (.success, table) =>
      (d, ⟨b.created + 1,
        ⟨b.context.type_decls, table, b.context.enum_decls, b.context.enum_constants,
          b.context.errors⟩⟩)

/-- The routine `declare_enum`. -/
def declare_enum (b : CodeGenBuilderMixin) (loc : Location) (name : String) (type : MType)
    (constants : Nat) : EnumDeclOp × CodeGenBuilderMixin :=
  let decl : EnumDeclOp := ⟨b.created, loc, name, type, constants⟩
  match symbol_table.declare b.context.enum_decls name decl with
  | (.failure, table) =>
    (decl, ⟨b.created + 1,
      CodeGenContext.error
        ⟨b.context.type_decls, b.context.type_defs, table, b.context.enum_constants,
          b.context.errors⟩
        "error: multiple enum declarations with the same name"⟩)
  | (.success, table) =>
    (decl, ⟨b.created + 1,
      ⟨b.context.type_decls, b.context.type_defs, table, b.context.enum_constants,
        b.context.errors⟩⟩)

/-- The routine `declare_enum_constant`. -/
def declare_enum_constant (b : CodeGenBuilderMixin) (enum_constant : EnumConstantOp) :
    EnumConstantOp × CodeGenBuilderMixin :=
  match symbol_table.lookup b.context.enum_constants enum_constant.name with
  | some decl => (decl, b)
  | none =>
    match symbol_table.declare b.context.enum_constants enum_constant.name enum_constant with
    | (.failure, table) =>
      (enum_constant, ⟨b.created,
        CodeGenContext.error
          ⟨b.context.type_decls, b.context.type_defs, b.context.enum_decls, table,
            b.context.errors⟩
          "error: multiple enum constant declarations with the same name"⟩)
    | (.success, table) =>
      (enum_constant, ⟨b.created,
        ⟨b.context.type_decls, b.context.type_defs, b.context.enum_decls, table,
          b.context.errors⟩⟩)

/-! ## Definitions used to state the properties -/

/-- Every present result of the conversion entry `self` is one type, and that
type is not `mlir::NoneType`. -/
def SingleResults (self : ConvertTypes) : Prop :=
  ∀ t l, self t = .returns (some l) → ∃ x, l = [x] ∧ x ≠ MType.noneType

/-- The nested array of the shape-order law, in the spec's words: "for shape
[d0, d1, ..., dn], the produced nested array type has dn as the innermost
dimension and d0 as the outermost"; the entries are array bounds. -/
def nestedArrayOfShape (shape : List Nat) (elem : MType) : MType :=
  shape.foldr (fun d inner => MType.llvmArray inner d) elem

/-- Reading the bounds of `n` nested array types back, outermost first; the
type below the `n` arrays is handed back with them. -/
def readShape : Nat → MType → Option (List Nat × MType)
  | 0, t => some ([], t)
  | n + 1, .llvmArray e d =>
    match readShape n e with
    | some (ds, el) => some (d :: ds, el)
    | none => none
  | _ + 1, _ => none

/-- Inherited conversions for the examples: every opaque type is legal in the
target and converts to itself; nothing else is known to them. -/
def sampleInherited : MType → Option Nat
  | .other k => some k
  | _ => none

/-- A context for the examples: it hands back the identified struct that
carries the requested name. -/
def sampleGetIdentified : String → Option String := fun name => some name

/-- The identified structs that an MLIR context holds: each under its name,
with the id of the record declaration it was made for. The context and the
converter go by the name only. -/
abbrev identified_structs := List (String × Nat)

/-- The call `LLVM::LLVMStructType::getIdentified` on a context that holds
`structs`, which is to "look up or create a named aggregate target type": the
struct held under the requested name when there is one, a new struct of that
name otherwise; the struct handed back carries the requested name either way. -/
def identified_structs.getIdentified (structs : identified_structs) (name : String) :
    Option String :=
  match structs.lookup name with
  | some _ => some name
  | none => some name

mutual
/-- Whether an lvalue or a decayed variant occurs in the type, at any nesting depth. -/
def MType.hasLvalueOrDecayed : MType → Bool
  | .other _ => false
  | .label => false
  | .decayed _ => true
  | .lvalue _ => true
  | .pointer e => e.hasLvalueOrDecayed
  | .memref _ e => e.hasLvalueOrDecayed
  | .unrankedMemref e => e.hasLvalueOrDecayed
  | .record _ => false
  | .elaborated e => e.hasLvalueOrDecayed
  | .fn ins outs _ => anyHasLvalueOrDecayed ins || anyHasLvalueOrDecayed outs
  | .noneType => false
  | .llvmVoid => false
  | .llvmPtr e => e.hasLvalueOrDecayed
  | .llvmArray e _ => e.hasLvalueOrDecayed
  | .llvmStruct _ => false
  | .llvmFn r ps _ => r.hasLvalueOrDecayed || anyHasLvalueOrDecayed ps
/-- Whether an lvalue or a decayed variant occurs in one of the types of a list. -/
def anyHasLvalueOrDecayed : List MType → Bool
  | [] => false
  | t :: ts => t.hasLvalueOrDecayed || anyHasLvalueOrDecayed ts
end

/-- Every type handed back by the conversion entry `self` is free of lvalue and
decayed variants. -/
def CleanResults (self : ConvertTypes) : Prop :=
  ∀ t l, self t = .returns (some l) → anyHasLvalueOrDecayed l = false

/-- A code generator that has declared nothing yet. -/
def emptyCodeGen : CodeGenBuilderMixin := ⟨0, ⟨[], [], [], [], []⟩⟩

/-- The in-order concatenation of the types that a signature conversion records
for the argument indices 0, 1, ... -/
def signature_conversion_t.recordedTypes (conversion : signature_conversion_t) : types_t :=
  (List.range conversion.remappedInputs.length).flatMap
    (fun i => (conversion.getInputMapping i).getD [])

/-- The steps that a step names: its prerequisites (`depends_on`) and, for a
composite, its children. -/
def pipeline_step_builder.edges (b : pipeline_step_builder) : List pipeline_step_builder :=
  b.build.dependencies ++
    (match b.build.kind with
     | .pass _ => []
     | .compose _ steps => steps)

/-- A step reaches another one along one or more `depends_on` or child edges. -/
inductive pipeline_step_builder.reaches : pipeline_step_builder → pipeline_step_builder → Prop
  | edge {a b : pipeline_step_builder} : b ∈ a.edges → pipeline_step_builder.reaches a b
  | step {a b c : pipeline_step_builder} :
      b ∈ a.edges → pipeline_step_builder.reaches b c → pipeline_step_builder.reaches a c

/-- The height of a step in the declared graph: the longest chain of edges
that starts at it. -/
def pipeline_step_builder.height : pipeline_step_builder → Nat
  | .to_ll => 1
  | .desugar => 1
  | .dce => 1
  | .ude => 1
  | .simplify => 2
  | .stdtypes => 2
  | _ => 0

/-- Every enum declaration in the table was created by the builder before. -/
def CodeGenBuilderMixin.enumDeclsCreated (b : CodeGenBuilderMixin) : Prop :=
  ∀ name d, symbol_table.lookup b.context.enum_decls name = some d → d.id < b.created

/-! # Properties -/

/-! ## Basic facts about the combinator chain and the loops -/

theorem MType.depth_le_depthList {t : MType} {ts : List MType} (h : t ∈ ts) :
    t.depth ≤ depthList ts := by
  induction ts with
  | nil => cases h
  | cons a as ih =>
    rcases List.mem_cons.mp h with rfl | h
    · simp [depthList]
    · have := ih h
      simp only [depthList]
      omega

/-- The chain `Maybe(elem).and_then(convert_type_to_type()).unwrap().and_then(f)
.take_wrapped()` when the element type converts to `x`: `f` is applied to `x`. -/
theorem Maybe.chain_present {β : Type} {self : ConvertTypes} {e x : MType} (f : MType → Exec β)
    (h : convert_type_to_type self e = .returns (some x)) :
    Maybe.take_wrapped (Maybe.and_then
      (Maybe.unwrap (Maybe.and_then (Maybe.wrap e) (convert_type_to_type self))) f)
      = match f x with
        | .returns b => .returns (some b)
        | .aborts err => .aborts err := by
  simp only [Maybe.take_wrapped, Maybe.wrap, Maybe.and_then, h, Maybe.unwrap]

/-- The same chain when the element type does not convert: absent, whatever `f` is. -/
theorem Maybe.chain_absent {β : Type} {self : ConvertTypes} {e : MType} (f : MType → Exec β)
    (h : convert_type_to_type self e = .returns none) :
    Maybe.take_wrapped (Maybe.and_then
      (Maybe.unwrap (Maybe.and_then (Maybe.wrap e) (convert_type_to_type self))) f)
      = .returns none := by
  simp only [Maybe.take_wrapped, Maybe.wrap, Maybe.and_then, h, Maybe.unwrap]

/-- The same chain when converting the element type aborts. -/
theorem Maybe.chain_aborts {β : Type} {self : ConvertTypes} {e : MType} {err : Fault}
    (f : MType → Exec β) (h : convert_type_to_type self e = .aborts err) :
    Maybe.take_wrapped (Maybe.and_then
      (Maybe.unwrap (Maybe.and_then (Maybe.wrap e) (convert_type_to_type self))) f)
      = .aborts err := by
  simp only [Maybe.take_wrapped, Maybe.wrap, Maybe.and_then, h, Maybe.unwrap]

theorem convert_type_to_type_congr {f g : ConvertTypes} {t : MType} (h : f t = g t) :
    convert_type_to_type f t = convert_type_to_type g t := by
  simp only [convert_type_to_type, convert_type_to_types, do_conversion, h]

theorem Maybe.chain_congr {β : Type} {f g : ConvertTypes} {e : MType} (k : MType → Exec β)
    (h : f e = g e) :
    Maybe.take_wrapped (Maybe.and_then
      (Maybe.unwrap (Maybe.and_then (Maybe.wrap e) (convert_type_to_type f))) k)
      = Maybe.take_wrapped (Maybe.and_then
      (Maybe.unwrap (Maybe.and_then (Maybe.wrap e) (convert_type_to_type g))) k) := by
  simp only [Maybe.take_wrapped, Maybe.wrap, Maybe.and_then, convert_type_to_type_congr h]

theorem convert_type_to_type_eq_some {self : ConvertTypes} {t x : MType} :
    convert_type_to_type self t = .returns (some x) ↔ self t = .returns (some [x]) := by
  unfold convert_type_to_type convert_type_to_types do_conversion
  constructor
  · intro h
    split at h
    · next heq => simp only [Exec.returns.injEq, Option.some.injEq] at h; rw [heq, h]
    · cases h
    · cases h
  · intro h
    rw [h]

theorem convert_arg_t_congr {f g : ConvertTypes} {t : MType}
    (h : ∀ u, u.depth ≤ t.depth → f u = g u) : convert_arg_t f t = convert_arg_t g t := by
  cases t <;> simp only [convert_arg_t, convert_type_to_types, do_conversion] <;>
    apply h <;> simp [MType.depth]

theorem convert_ret_t_eq_convert_arg_t (self : ConvertTypes) (t : MType) :
    convert_ret_t self t = convert_arg_t self t := by
  cases t <;> rfl

theorem on_types.loop_congr {f g : MType → Exec maybe_types_t} :
    ∀ (ts : List MType) (out : types_t), (∀ t ∈ ts, f t = g t) →
      on_types.loop f ts out = on_types.loop g ts out
  | [], _, _ => rfl
  | t :: ts, out, h => by
    have ht : f t = g t := h t (List.mem_cons_self t ts)
    have hts : ∀ u ∈ ts, f u = g u := fun u hu => h u (List.mem_cons_of_mem t hu)
    simp only [on_types.loop, ht]
    cases g t with
    | returns o =>
      cases o with
      | none => rfl
      | some cty => exact on_types.loop_congr ts _ hts
    | aborts e => rfl

/-! ## The dispatch recurses on the nesting depth -/

theorem convert_fn_t_congr {f g : ConvertTypes} {ins outs : List MType} (va : Bool)
    (h : ∀ u, u.depth ≤ max (depthList ins) (depthList outs) → f u = g u) :
    convert_fn_t f ins outs va = convert_fn_t g ins outs va := by
  have ha : on_types ins (convert_arg_t f) = on_types ins (convert_arg_t g) := by
    apply on_types.loop_congr
    intro t ht
    apply convert_arg_t_congr
    intro u hu
    have := MType.depth_le_depthList ht
    apply h
    omega
  have hr : on_types outs (convert_ret_t f) = on_types outs (convert_ret_t g) := by
    apply on_types.loop_congr
    intro t ht
    rw [convert_ret_t_eq_convert_arg_t, convert_ret_t_eq_convert_arg_t]
    apply convert_arg_t_congr
    intro u hu
    have := MType.depth_le_depthList ht
    apply h
    omega
  simp only [convert_fn_t, ha, hr]

theorem Handler.apply_congr (gi : String → Option String) {f g : ConvertTypes} (h : Handler)
    (t : MType) (hfg : ∀ u, u.depth < t.depth → f u = g u) :
    h.apply gi f t = h.apply gi g t := by
  cases h <;> cases t <;>
    first
    | rfl
    | exact Maybe.chain_congr _ (hfg _ (by simp [MType.depth]))
    | exact convert_type_to_type_congr (hfg _ (by simp [MType.depth]))
    | exact convert_fn_t_congr _ (fun u hu => hfg u (by simp only [MType.depth]; omega))

theorem TypeConverter.convertType.dispatch_congr (c : TypeConverter) {f g : ConvertTypes} (t : MType)
    (hfg : ∀ u, u.depth < t.depth → f u = g u) :
    ∀ hs : List Handler,
      TypeConverter.convertType.loop c f t hs = TypeConverter.convertType.loop c g t hs
  | [] => rfl
  | h :: hs => by
    simp only [TypeConverter.convertType.loop, Handler.apply_congr c.getIdentified h t hfg,
      TypeConverter.convertType.dispatch_congr c t hfg hs]

theorem TypeConverter.convertTypesAux_stable (c : TypeConverter) :
    ∀ (n : Nat) (t : MType), t.depth < n →
      c.convertTypesAux n t = c.convertTypesAux (t.depth + 1) t := by
  intro n
  induction n using Nat.strong_induction_on with
  | _ n ih =>
    intro t ht
    cases n with
    | zero => omega
    | succ k =>
      show c.convertType (c.convertTypesAux k) t = c.convertType (c.convertTypesAux t.depth) t
      apply TypeConverter.convertType.dispatch_congr
      intro u hu
      rw [ih k (Nat.lt_succ_self k) u (by omega), ih t.depth (by omega) u hu]

/-- The defining equation of the conversion entry: converting a type runs the
dispatch, whose handlers call the conversion entry again on element types. -/
theorem TypeConverter.convertTypes_eq (c : TypeConverter) (t : MType) :
    c.convertTypes t = c.convertType c.convertTypes t := by
  show c.convertType (c.convertTypesAux t.depth) t = c.convertType c.convertTypes t
  apply TypeConverter.convertType.dispatch_congr
  intro u hu
  exact c.convertTypesAux_stable t.depth u hu

/-! ## What the handlers hand back -/

/-- A present result of the chain comes from applying `f` to the converted element type. -/
theorem Maybe.chain_eq_some {β : Type} {self : ConvertTypes} {e : MType} {f : MType → Exec β}
    {r : β}
    (h : Maybe.take_wrapped (Maybe.and_then
      (Maybe.unwrap (Maybe.and_then (Maybe.wrap e) (convert_type_to_type self))) f)
      = .returns (some r)) :
    ∃ x, convert_type_to_type self e = .returns (some x) ∧ f x = .returns r := by
  cases hc : convert_type_to_type self e with
  | returns o =>
    cases o with
    | none => rw [Maybe.chain_absent f hc] at h; cases h
    | some x =>
      rw [Maybe.chain_present f hc] at h
      refine ⟨x, rfl, ?_⟩
      cases hf : f x with
      | returns b => rw [hf] at h; cases h; rfl
      | aborts err => rw [hf] at h; cases h
  | aborts err => rw [Maybe.chain_aborts f hc] at h; cases h

theorem make_ptr_type_eq_returns {t p : MType} (h : make_ptr_type t = .returns p) :
    t ≠ .noneType ∧ p = .llvmPtr t := by
  cases t <;> first | (cases h; exact ⟨nofun, rfl⟩) | cases h

theorem make_ptr_type_of_ne {t : MType} (h : t ≠ .noneType) :
    make_ptr_type t = .returns (.llvmPtr t) := by
  cases t <;> first | rfl | exact absurd rfl h

theorem make_array.loop_ne_noneType (shape : List Int) :
    ∀ (k : Nat) (out r : MType), make_array.loop shape k out = .returns r →
      out ≠ .noneType → r ≠ .noneType
  | 0, out, r, h, hout => by
    simp only [make_array.loop, Exec.returns.injEq] at h
    exact h ▸ hout
  | k + 1, out, r, h, _ => by
    simp only [make_array.loop] at h
    split at h
    · exact make_array.loop_ne_noneType shape k _ r h (by intro hh; cases hh)
    · cases h

theorem make_array_ne_noneType {shape : List Int} {t r : MType}
    (h : make_array shape t = .returns r) : r ≠ .noneType := by
  unfold make_array at h
  split at h
  · cases h
  · exact make_array.loop_ne_noneType shape _ _ r h (by intro hh; cases hh)

theorem convert_fn_t_eq_some {self : ConvertTypes} {ins outs : List MType} {va : Bool}
    {ty : MType} (h : convert_fn_t self ins outs va = .returns (some ty)) :
    ∃ res params, ty = .llvmFn res params va := by
  unfold convert_fn_t at h
  split at h
  · cases h
  · split at h
    · cases h
    · split at h
      · split at h
        · split at h
          · cases h; exact ⟨_, _, rfl⟩
          · cases h; exact ⟨_, _, rfl⟩
        · cases h
      · cases h

theorem convert_record_type_eq_some {gi : String → Option String} {name : String} {ty : MType}
    (h : convert_record_type gi name = .returns (some ty)) :
    gi name = some name ∧ ty = .llvmStruct name := by
  unfold convert_record_type at h
  split at h
  · cases h
  · next raw hraw =>
    split at h
    · cases h
    · next hne =>
      have hraw2 : raw = name := by simpa using hne
      cases h
      exact ⟨by rw [hraw, hraw2], by rw [hraw2]⟩

theorem Handler.apply_ne_noneType (gi : String → Option String) {self : ConvertTypes}
    (hself : SingleResults self) (h : Handler) (t ty : MType)
    (hty : h.apply gi self t = .returns (some ty)) : ty ≠ .noneType := by
  intro hn
  subst hn
  cases h <;> cases t <;> simp only [Handler.apply] at hty <;>
    first
    | cases hty
    | (obtain ⟨x, _, hx⟩ := Maybe.chain_eq_some hty
       first
       | exact absurd (make_ptr_type_eq_returns hx).2 (by intro hh; cases hh)
       | exact make_array_ne_noneType hx rfl)
    | (obtain ⟨_, _, hh⟩ := convert_fn_t_eq_some hty; cases hh)
    | (have hh := (convert_record_type_eq_some hty).2; cases hh)
    | (obtain ⟨x, hx, hne⟩ := hself _ _ (convert_type_to_type_eq_some.mp hty)
       simp only [List.cons.injEq, and_true] at hx
       exact hne hx.symm)

theorem TypeConverter.convertType.loop_single (c : TypeConverter) {self : ConvertTypes}
    (hself : SingleResults self) (t : MType) :
    ∀ (hs : List Handler) (l : types_t),
      TypeConverter.convertType.loop c self t hs = .returns (some l) →
        ∃ x, l = [x] ∧ x ≠ MType.noneType
  | [], l, h => by
    simp only [TypeConverter.convertType.loop] at h
    split at h
    · cases h
    · split at h
      · cases h; exact ⟨_, rfl, by intro hh; cases hh⟩
      · cases h
  | hd :: hs, l, h => by
    simp only [TypeConverter.convertType.loop] at h
    split at h
    · next ty hty =>
      cases h
      exact ⟨ty, rfl, Handler.apply_ne_noneType c.getIdentified hself hd t ty hty⟩
    · exact TypeConverter.convertType.loop_single c hself t hs l h
    · cases h

theorem TypeConverter.convertTypesAux_single (c : TypeConverter) :
    ∀ n : Nat, SingleResults (c.convertTypesAux n)
  | 0 => by
    intro t l h
    cases h
  | n + 1 => by
    intro t l h
    exact TypeConverter.convertType.loop_single c (c.convertTypesAux_single n) t _ l h

/-- The conversion entry hands back exactly one type for a type it converts,
and never `mlir::NoneType`. -/
theorem TypeConverter.convertTypes_single (c : TypeConverter) : SingleResults c.convertTypes :=
  fun t l h => c.convertTypesAux_single (t.depth + 1) t l h

/-! ## The loop of `on_types` -/

theorem on_types.loop_present {f : MType → Exec maybe_types_t} :
    ∀ (ts ps : List MType) (out : types_t),
      List.Forall₂ (fun t p => f t = .returns (some [p])) ts ps →
        on_types.loop f ts out = .returns (some (out ++ ps))
  | [], [], out, _ => by simp [on_types.loop]
  | t :: ts, p :: ps, out, h => by
    rw [List.forall₂_cons] at h
    simp only [on_types.loop, h.1, appender]
    rw [on_types.loop_present ts ps _ h.2]
    simp
  | [], _ :: _, _, h => by cases h
  | _ :: _, [], _, h => by cases h

theorem on_types.loop_eq_some_forall {f : MType → Exec maybe_types_t} :
    ∀ (ts : List MType) (out r : types_t), on_types.loop f ts out = .returns (some r) →
      ∀ t ∈ ts, ∃ l, f t = .returns (some l)
  | [], _, _, _ => by
    intro t ht
    cases ht
  | a :: ts, out, r, h => by
    simp only [on_types.loop] at h
    split at h
    · next cty ha =>
      intro t ht
      rcases List.mem_cons.mp ht with rfl | ht
      · exact ⟨cty, ha⟩
      · exact on_types.loop_eq_some_forall ts _ r h t ht
    · cases h
    · cases h

theorem on_types.loop_eq_none {f : MType → Exec maybe_types_t} :
    ∀ (ts : List MType) (out : types_t), on_types.loop f ts out = .returns none →
      ∃ t ∈ ts, f t = .returns none
  | [], _, h => by cases h
  | t :: ts, out, h => by
    simp only [on_types.loop] at h
    split at h
    · obtain ⟨u, hu, hfu⟩ := on_types.loop_eq_none ts _ h
      exact ⟨u, List.mem_cons_of_mem t hu, hfu⟩
    · next hft => exact ⟨t, List.mem_cons_self t ts, hft⟩
    · cases h

theorem exists_forall₂_of_forall_mem {f : MType → Exec maybe_types_t} :
    ∀ ts : List MType, (∀ t ∈ ts, ∃ p, f t = .returns (some [p])) →
      ∃ ps, List.Forall₂ (fun t p => f t = .returns (some [p])) ts ps
  | [], _ => ⟨[], List.Forall₂.nil⟩
  | t :: ts, h => by
    obtain ⟨p, hp⟩ := h t (List.mem_cons_self t ts)
    obtain ⟨ps, hps⟩ :=
      exists_forall₂_of_forall_mem ts (fun u hu => h u (List.mem_cons_of_mem t hu))
    exact ⟨p :: ps, List.Forall₂.cons hp hps⟩

theorem convert_arg_t_single {self : ConvertTypes} (hself : SingleResults self) {t : MType}
    {l : types_t} (h : convert_arg_t self t = .returns (some l)) : ∃ p, l = [p] := by
  cases t <;> simp only [convert_arg_t, convert_type_to_types, do_conversion] at h <;>
    (obtain ⟨x, hx, _⟩ := hself _ _ h; exact ⟨x, hx⟩)

/-! ## Function types -/

/-- C1: for a function type whose inputs all convert and whose result list has
at most one entry, which converts, `convert_fn_t` returns a target function
type: its result is void when the source has no result and the one converted
result type when it has one, its parameters are the converted inputs in source
order, and its variadic flag is the one of the source. -/
theorem convert_fn_t_flattening (c : TypeConverter) (inputs results : List MType)
    (isVarArg : Bool)
    (hin : ∀ t ∈ inputs, ∃ l, convert_arg_t c.convertTypes t = .returns (some l))
    (hlen : results.length ≤ 1)
    (hres : ∀ t ∈ results, ∃ l, convert_ret_t c.convertTypes t = .returns (some l)) :
    ∃ res params,
      convert_fn_t c.convertTypes inputs results isVarArg
        = .returns (some (.llvmFn res params isVarArg)) ∧
      List.Forall₂ (fun t p => convert_arg_t c.convertTypes t = .returns (some [p]))
        inputs params ∧
      (results = [] → res = .llvmVoid) ∧
      (∀ r, results = [r] → convert_ret_t c.convertTypes r = .returns (some [res])) := by
  have hsingle := c.convertTypes_single
  obtain ⟨params, hparams⟩ := exists_forall₂_of_forall_mem (f := convert_arg_t c.convertTypes)
    inputs (fun t ht => by
      obtain ⟨l, hl⟩ := hin t ht
      obtain ⟨p, rfl⟩ := convert_arg_t_single hsingle hl
      exact ⟨p, hl⟩)
  have ha : on_types inputs (convert_arg_t c.convertTypes) = .returns (some params) := by
    have := on_types.loop_present inputs params [] hparams
    simpa [on_types] using this
  match results, hlen, hres with
  | [], _, _ =>
    refine ⟨.llvmVoid, params, ?_, hparams, fun _ => rfl, nofun⟩
    unfold convert_fn_t
    rw [ha]
    rfl
  | [r], _, hres =>
    obtain ⟨l, hl⟩ := hres r (List.mem_singleton.mpr rfl)
    have hl2 := hl
    rw [convert_ret_t_eq_convert_arg_t] at hl2
    obtain ⟨res, rfl⟩ := convert_arg_t_single hsingle hl2
    refine ⟨res, params, ?_, hparams, nofun, fun r2 hr => ?_⟩
    · unfold convert_fn_t
      rw [ha]
      simp [on_types, on_types.loop, hl, appender]
    · cases hr
      exact hl
  | _ :: _ :: _, hlen, _ => simp at hlen

theorem convert_fn_t_flattening_witness :
    (∀ t ∈ [MType.lvalue (.other 32), .pointer (.other 8)], ∃ l,
      convert_arg_t (LLVMTypeConverter sampleInherited sampleGetIdentified).convertTypes t
        = .returns (some l)) ∧
    [MType.other 1].length ≤ 1 ∧
    (∀ t ∈ [MType.other 1], ∃ l,
      convert_ret_t (LLVMTypeConverter sampleInherited sampleGetIdentified).convertTypes t
        = .returns (some l)) ∧
    ∃ res params,
      convert_fn_t (LLVMTypeConverter sampleInherited sampleGetIdentified).convertTypes
        [.lvalue (.other 32), .pointer (.other 8)] [.other 1] true
        = .returns (some (.llvmFn res params true)) ∧
      List.Forall₂
        (fun t p =>
          convert_arg_t (LLVMTypeConverter sampleInherited sampleGetIdentified).convertTypes t
            = .returns (some [p]))
        [.lvalue (.other 32), .pointer (.other 8)] params ∧
      ([MType.other 1] = [] → res = .llvmVoid) ∧
      (∀ r, [MType.other 1] = [r] →
        convert_ret_t (LLVMTypeConverter sampleInherited sampleGetIdentified).convertTypes r
          = .returns (some [res])) :=
  have hin : ∀ t ∈ [MType.lvalue (.other 32), .pointer (.other 8)], ∃ l,
      convert_arg_t (LLVMTypeConverter sampleInherited sampleGetIdentified).convertTypes t
        = .returns (some l) := by
    intro t ht
    simp only [List.mem_cons, List.mem_singleton, List.not_mem_nil, or_false] at ht
    rcases ht with rfl | rfl
    · exact ⟨[.other 32], rfl⟩
    · exact ⟨[.llvmPtr (.other 8)], rfl⟩
  have hres : ∀ t ∈ [MType.other 1], ∃ l,
      convert_ret_t (LLVMTypeConverter sampleInherited sampleGetIdentified).convertTypes t
        = .returns (some l) := by
    intro t ht
    simp only [List.mem_singleton] at ht
    subst ht
    exact ⟨[.other 1], rfl⟩
  ⟨hin, by decide, hres,
    convert_fn_t_flattening (LLVMTypeConverter sampleInherited sampleGetIdentified)
      [.lvalue (.other 32), .pointer (.other 8)] [.other 1] true hin (by decide) hres⟩

/-- C2: for a function type whose inputs all convert and whose converted result
list has two or more entries, `convert_fn_t` produces no target function type:
the check `VAST_ASSERT(r_res->size() <= 1)` fails and aborts the conversion. -/
theorem convert_fn_t_multiple_results (c : TypeConverter) (inputs results : List MType)
    (isVarArg : Bool) (r_res : types_t)
    (hin : ∀ t ∈ inputs, ∃ l, convert_arg_t c.convertTypes t = .returns (some l))
    (hres : on_types results (convert_ret_t c.convertTypes) = .returns (some r_res))
    (hlen : 2 ≤ r_res.length) :
    convert_fn_t c.convertTypes inputs results isVarArg = .aborts .assertion := by
  obtain ⟨params, hparams⟩ := exists_forall₂_of_forall_mem (f := convert_arg_t c.convertTypes)
    inputs (fun t ht => by
      obtain ⟨l, hl⟩ := hin t ht
      obtain ⟨p, rfl⟩ := convert_arg_t_single c.convertTypes_single hl
      exact ⟨p, hl⟩)
  have ha : on_types inputs (convert_arg_t c.convertTypes) = .returns (some params) := by
    have := on_types.loop_present inputs params [] hparams
    simpa [on_types] using this
  unfold convert_fn_t
  rw [ha, hres]
  have : ¬ r_res.length ≤ 1 := by omega
  simp [this]

theorem convert_fn_t_multiple_results_witness :
    (∀ t ∈ [MType.lvalue (.other 32)], ∃ l,
      convert_arg_t (LLVMTypeConverter sampleInherited sampleGetIdentified).convertTypes t
        = .returns (some l)) ∧
    on_types [MType.other 1, .pointer (.other 8)]
      (convert_ret_t (LLVMTypeConverter sampleInherited sampleGetIdentified).convertTypes)
      = .returns (some [.other 1, .llvmPtr (.other 8)]) ∧
    2 ≤ [MType.other 1, MType.llvmPtr (.other 8)].length ∧
    convert_fn_t (LLVMTypeConverter sampleInherited sampleGetIdentified).convertTypes
      [.lvalue (.other 32)] [.other 1, .pointer (.other 8)] false = .aborts .assertion :=
  have hin : ∀ t ∈ [MType.lvalue (.other 32)], ∃ l,
      convert_arg_t (LLVMTypeConverter sampleInherited sampleGetIdentified).convertTypes t
        = .returns (some l) := by
    intro t ht
    simp only [List.mem_singleton] at ht
    subst ht
    exact ⟨[.other 32], rfl⟩
  ⟨hin, rfl, by decide,
    convert_fn_t_multiple_results (LLVMTypeConverter sampleInherited sampleGetIdentified)
      [.lvalue (.other 32)] [.other 1, .pointer (.other 8)] false
      [.other 1, .llvmPtr (.other 8)] hin rfl (by decide)⟩

/-- C3, as stated, fails: the second input, `hl.record`, does not convert under
the default profile (`convert_arg_t` returns absent), yet `convert_fn_t` does
not return absent, because converting the first input, a decayed type, aborts
the run. -/
theorem convert_fn_t_absent_counterexample :
    convert_arg_t (LLVMTypeConverter sampleInherited sampleGetIdentified).convertTypes
        (.record "S") = .returns none ∧
    convert_fn_t (LLVMTypeConverter sampleInherited sampleGetIdentified).convertTypes
        [.decayed (.pointer (.other 32)), .record "S"] [] false = .aborts .unreachable ∧
    convert_fn_t (LLVMTypeConverter sampleInherited sampleGetIdentified).convertTypes
        [.decayed (.pointer (.other 32)), .record "S"] [] false ≠ .returns none :=
  ⟨rfl, rfl, nofun⟩

/-- C3, amended: when neither the `on_types` pass over the inputs nor the one
over the results is aborted, a function type with at least one input or
result that fails to convert (`convert_arg_t` / `convert_ret_t` returns
absent) makes `convert_fn_t` return absent, whatever the other inputs and
results are and however many results there are. -/
theorem convert_fn_t_absent (c : TypeConverter) (inputs results : List MType) (isVarArg : Bool)
    (hina : ∀ e, on_types inputs (convert_arg_t c.convertTypes) ≠ .aborts e)
    (hresa : ∀ e, on_types results (convert_ret_t c.convertTypes) ≠ .aborts e)
    (h : (∃ t ∈ inputs, convert_arg_t c.convertTypes t = .returns none) ∨
      (∃ t ∈ results, convert_ret_t c.convertTypes t = .returns none)) :
    convert_fn_t c.convertTypes inputs results isVarArg = .returns none := by
  have key : ∀ (fn : MType → Exec maybe_types_t) (ts : List MType),
      (∃ t ∈ ts, fn t = .returns none) → ∀ r, on_types ts fn ≠ .returns (some r) := by
    intro fn ts hex r hr
    obtain ⟨t, ht, hnone⟩ := hex
    obtain ⟨l, hl⟩ := on_types.loop_eq_some_forall ts [] r hr t ht
    rw [hnone] at hl
    cases hl
  unfold convert_fn_t
  cases ha : on_types inputs (convert_arg_t c.convertTypes) with
  | aborts e => exact absurd ha (hina e)
  | returns a_res =>
    cases hr : on_types results (convert_ret_t c.convertTypes) with
    | aborts e => exact absurd hr (hresa e)
    | returns r_res =>
      cases a_res with
      | none => rfl
      | some a =>
        cases r_res with
        | none => rfl
        | some r =>
          rcases h with h | h
          · exact absurd ha (key _ _ h a)
          · exact absurd hr (key _ _ h r)

theorem convert_fn_t_absent_witness :
    (∀ e, on_types [MType.other 32, .record "S", .decayed (.other 1)]
      (convert_arg_t (LLVMTypeConverter sampleInherited sampleGetIdentified).convertTypes)
        ≠ .aborts e) ∧
    (∀ e, on_types [MType.other 1, .other 2]
      (convert_ret_t (LLVMTypeConverter sampleInherited sampleGetIdentified).convertTypes)
        ≠ .aborts e) ∧
    ((∃ t ∈ [MType.other 32, .record "S", .decayed (.other 1)],
      convert_arg_t (LLVMTypeConverter sampleInherited sampleGetIdentified).convertTypes t
        = .returns none) ∨
     (∃ t ∈ [MType.other 1, .other 2],
      convert_ret_t (LLVMTypeConverter sampleInherited sampleGetIdentified).convertTypes t
        = .returns none)) ∧
    convert_fn_t (LLVMTypeConverter sampleInherited sampleGetIdentified).convertTypes
      [.other 32, .record "S", .decayed (.other 1)] [.other 1, .other 2] true
      = .returns none :=
  have hina : ∀ e, on_types [MType.other 32, .record "S", .decayed (.other 1)]
      (convert_arg_t (LLVMTypeConverter sampleInherited sampleGetIdentified).convertTypes)
        ≠ .aborts e :=
    fun _ hh => Exec.noConfusion (hh : Exec.returns none = _)
  have hresa : ∀ e, on_types [MType.other 1, .other 2]
      (convert_ret_t (LLVMTypeConverter sampleInherited sampleGetIdentified).convertTypes)
        ≠ .aborts e :=
    fun _ hh => Exec.noConfusion (hh : Exec.returns (some [MType.other 1, .other 2]) = _)
  have h : (∃ t ∈ [MType.other 32, .record "S", .decayed (.other 1)],
      convert_arg_t (LLVMTypeConverter sampleInherited sampleGetIdentified).convertTypes t
        = .returns none) ∨
     (∃ t ∈ [MType.other 1, .other 2],
      convert_ret_t (LLVMTypeConverter sampleInherited sampleGetIdentified).convertTypes t
        = .returns none) :=
    Or.inl ⟨.record "S", by simp, rfl⟩
  ⟨hina, hresa, h,
    convert_fn_t_absent (LLVMTypeConverter sampleInherited sampleGetIdentified)
      [.other 32, .record "S", .decayed (.other 1)] [.other 1, .other 2] true hina hresa h⟩

/-! ## Lvalue and pointer types -/

theorem MType.llvmPtr_ne_self (x : MType) : MType.llvmPtr x ≠ x := by
  intro h
  have := congrArg MType.depth h
  simp [MType.depth] at this

/-- C4: `convert_arg_t` on lvalue-of-`T` returns exactly `convert_type_to_types(T)`,
the conversion of `T` itself, and so does `convert_ret_t`; the two routines
agree on every type; and when `T` converts to `X`, the result for lvalue-of-`T`
is `X` and not the pointer to `X` that the lvalue handler builds. -/
theorem convert_arg_t_lvalue (c : TypeConverter) (T : MType) :
    convert_arg_t c.convertTypes (.lvalue T) = convert_type_to_types c.convertTypes T ∧
    convert_ret_t c.convertTypes (.lvalue T) = convert_type_to_types c.convertTypes T ∧
    (∀ t, convert_ret_t c.convertTypes t = convert_arg_t c.convertTypes t) ∧
    (∀ X, convert_type_to_type c.convertTypes T = .returns (some X) →
      convert_arg_t c.convertTypes (.lvalue T) = .returns (some [X]) ∧
      convert_arg_t c.convertTypes (.lvalue T) ≠ .returns (some [.llvmPtr X]) ∧
      convert_lvalue_type c.convertTypes T = .returns (some (.llvmPtr X))) := by
  refine ⟨rfl, rfl, convert_ret_t_eq_convert_arg_t c.convertTypes, fun X hX => ?_⟩
  have hT : c.convertTypes T = .returns (some [X]) := convert_type_to_type_eq_some.mp hX
  have harg : convert_arg_t c.convertTypes (.lvalue T) = .returns (some [X]) := hT
  refine ⟨harg, ?_, ?_⟩
  · rw [harg]
    intro h
    simp only [Exec.returns.injEq, Option.some.injEq, List.cons.injEq, and_true] at h
    exact MType.llvmPtr_ne_self X h.symm
  · obtain ⟨x, hx, hne⟩ := c.convertTypes_single T _ hT
    simp only [List.cons.injEq, and_true] at hx
    subst hx
    unfold convert_lvalue_type
    rw [Maybe.chain_present make_ptr_type hX, make_ptr_type_of_ne hne]

/-- C5: converting pointer-to-`T` and converting lvalue-of-`T` give the same
result: the target pointer to the conversion of `T` when `T` converts, absent
when `T` does not. -/
theorem convert_pointer_type_eq_convert_lvalue_type (c : TypeConverter) (T : MType) :
    convert_pointer_type c.convertTypes T = convert_lvalue_type c.convertTypes T ∧
    (∀ X, convert_type_to_type c.convertTypes T = .returns (some X) →
      convert_pointer_type c.convertTypes T = .returns (some (.llvmPtr X)) ∧
      convert_lvalue_type c.convertTypes T = .returns (some (.llvmPtr X))) ∧
    (convert_type_to_type c.convertTypes T = .returns none →
      convert_pointer_type c.convertTypes T = .returns none ∧
      convert_lvalue_type c.convertTypes T = .returns none) := by
  refine ⟨rfl, fun X hX => ?_, fun hT => ?_⟩
  · have hT : c.convertTypes T = .returns (some [X]) := convert_type_to_type_eq_some.mp hX
    obtain ⟨x, hx, hne⟩ := c.convertTypes_single T _ hT
    simp only [List.cons.injEq, and_true] at hx
    subst hx
    unfold convert_pointer_type convert_lvalue_type
    rw [Maybe.chain_present make_ptr_type hX, make_ptr_type_of_ne hne]
    exact ⟨rfl, rfl⟩
  · unfold convert_pointer_type convert_lvalue_type
    rw [Maybe.chain_absent make_ptr_type hT]
    exact ⟨rfl, rfl⟩

/-- C6: when the inner type of a pointer type fails to convert,
`convert_pointer_type` returns absent, and the chain returns absent whatever
step stands in the place of `make_ptr_type`, so that step is never applied;
and every present result of `convert_pointer_type` is the pointer to the
converted inner type. -/
theorem convert_pointer_type_inner (c : TypeConverter) (T : MType) :
    (convert_type_to_type c.convertTypes T = .returns none →
      convert_pointer_type c.convertTypes T = .returns none ∧
      ∀ wrap_step : MType → Exec MType,
        Maybe.take_wrapped (Maybe.and_then
          (Maybe.unwrap
            (Maybe.and_then (Maybe.wrap T) (convert_type_to_type c.convertTypes)))
          wrap_step) = .returns none) ∧
    (∀ R, convert_pointer_type c.convertTypes T = .returns (some R) →
      ∃ X, convert_type_to_type c.convertTypes T = .returns (some X) ∧ R = .llvmPtr X) := by
  refine ⟨fun hT => ⟨?_, fun wrap_step => Maybe.chain_absent wrap_step hT⟩, fun R hR => ?_⟩
  · unfold convert_pointer_type
    exact Maybe.chain_absent make_ptr_type hT
  · unfold convert_pointer_type at hR
    obtain ⟨X, hX, hptr⟩ := Maybe.chain_eq_some hR
    exact ⟨X, hX, (make_ptr_type_eq_returns hptr).2⟩

/-! ## Memory-region types -/

theorem readShape_nestedArrayOfShape (E : MType) :
    ∀ shape : List Nat, readShape shape.length (nestedArrayOfShape shape E) = some (shape, E)
  | [] => rfl
  | d :: ds => by
    simp only [List.length_cons, nestedArrayOfShape, List.foldr_cons, readShape]
    have := readShape_nestedArrayOfShape E ds
    simp only [nestedArrayOfShape] at this
    rw [this]

theorem make_array.loop_nested (shape : List Int) (E : MType) :
    ∀ k : Nat, k ≤ shape.length →
      make_array.loop shape k (nestedArrayOfShape ((shape.drop k).map to_unsigned) E)
        = .returns (nestedArrayOfShape (shape.map to_unsigned) E)
  | 0, _ => by simp [make_array.loop]
  | k + 1, hk => by
    have hlt : k < shape.length := by omega
    have hdrop : shape.drop k = shape[k] :: shape.drop (k + 1) := List.drop_eq_getElem_cons hlt
    simp only [make_array.loop, List.getElem?_eq_getElem hlt]
    have := make_array.loop_nested shape E k (by omega)
    rw [hdrop] at this
    simp only [nestedArrayOfShape, List.map_cons, List.foldr_cons] at this ⊢
    exact this

theorem make_array_eq (shape : List Int) (E : MType) (hne : shape ≠ []) :
    make_array shape E = .returns (nestedArrayOfShape (shape.map to_unsigned) E) := by
  have hpos : 0 < shape.length := List.length_pos.mpr hne
  have hlt : shape.length - 1 < shape.length := by omega
  have hdrop : shape.drop (shape.length - 1) = [shape[shape.length - 1]] := by
    rw [List.drop_eq_getElem_cons hlt]
    have : shape.length - 1 + 1 = shape.length := by omega
    rw [this, List.drop_length]
  unfold make_array
  rw [List.getLast?_eq_getElem?, List.getElem?_eq_getElem hlt]
  have := make_array.loop_nested shape E (shape.length - 1) (by omega)
  rw [hdrop] at this
  simp only [nestedArrayOfShape, List.map_cons, List.map_nil, List.foldr_cons,
    List.foldr_nil] at this ⊢
  exact this

theorem to_unsigned_of_fits {d : Int} (h0 : 0 ≤ d) (h1 : d < 4294967296) :
    (to_unsigned d : Int) = d := by
  unfold to_unsigned
  rw [Int.emod_eq_of_lt h0 h1]
  exact Int.toNat_of_nonneg h0

theorem map_to_unsigned_of_fits :
    ∀ shape : List Int, (∀ d ∈ shape, 0 ≤ d ∧ d < 4294967296) →
      (shape.map to_unsigned).map Int.ofNat = shape
  | [], _ => rfl
  | d :: ds, h => by
    have hd := h d (List.mem_cons_self d ds)
    have hds := map_to_unsigned_of_fits ds (fun x hx => h x (List.mem_cons_of_mem d hx))
    simp only [List.map_cons, hds]
    congr 1
    exact to_unsigned_of_fits hd.1 hd.2

/-- C7 fails on a shape with an entry that does not fit the `unsigned` array
bound: the entry 4294967297 gives an array of bound 1, a dynamic entry
(the least `int64_t`) one of bound 0, so the bounds read back are not the
shape. What the code builds for a non-empty shape and an element type that
converts to `E` is the nested array of the entries modulo 2^32, outermost
first; when every entry fits the bound, `d0` is the outermost bound, `dn` the
innermost one, and reading the bounds back gives the shape again. -/
theorem convert_memref_type_shape_order :
    convert_memref_type (LLVMTypeConverter sampleInherited sampleGetIdentified).convertTypes
      [4294967297, 3] (.other 8)
      = .returns (some (.llvmArray (.llvmArray (.other 8) 3) 1)) ∧
    readShape 2 (.llvmArray (.llvmArray (.other 8) 3) 1) = some ([1, 3], .other 8) ∧
    convert_memref_type (LLVMTypeConverter sampleInherited sampleGetIdentified).convertTypes
      [-9223372036854775808] (.other 8)
      = .returns (some (.llvmArray (.other 8) 0)) ∧
    (∀ (c : TypeConverter) (shape : List Int) (elem E : MType), shape ≠ [] →
      convert_type_to_type c.convertTypes elem = .returns (some E) →
      convert_memref_type c.convertTypes shape elem
        = .returns (some (nestedArrayOfShape (shape.map to_unsigned) E)) ∧
      readShape shape.length (nestedArrayOfShape (shape.map to_unsigned) E)
        = some (shape.map to_unsigned, E)) ∧
    (∀ (c : TypeConverter) (shape : List Int) (elem E : MType), shape ≠ [] →
      (∀ d ∈ shape, 0 ≤ d ∧ d < 4294967296) →
      convert_type_to_type c.convertTypes elem = .returns (some E) →
      ∃ R bounds, convert_memref_type c.convertTypes shape elem = .returns (some R) ∧
        readShape shape.length R = some (bounds, E) ∧
        bounds.map Int.ofNat = shape ∧
        (∀ d0 rest, shape = d0 :: rest →
          R = .llvmArray (nestedArrayOfShape (rest.map to_unsigned) E) d0.toNat) ∧
        (∀ front dn, shape = front ++ [dn] →
          R = nestedArrayOfShape (front.map to_unsigned) (.llvmArray E dn.toNat))) := by
  have hgen : ∀ (c : TypeConverter) (shape : List Int) (elem E : MType), shape ≠ [] →
      convert_type_to_type c.convertTypes elem = .returns (some E) →
      convert_memref_type c.convertTypes shape elem
        = .returns (some (nestedArrayOfShape (shape.map to_unsigned) E)) ∧
      readShape shape.length (nestedArrayOfShape (shape.map to_unsigned) E)
        = some (shape.map to_unsigned, E) := by
    intro c shape elem E hne hE
    constructor
    · unfold convert_memref_type
      rw [Maybe.chain_present (make_array shape) hE, make_array_eq shape E hne]
    · have := readShape_nestedArrayOfShape E (shape.map to_unsigned)
      simpa using this
  have hnat : ∀ d : Int, 0 ≤ d → d < 4294967296 → to_unsigned d = d.toNat := by
    intro d h0 h1
    unfold to_unsigned
    rw [Int.emod_eq_of_lt h0 h1]
  refine ⟨rfl, rfl, rfl, hgen, fun c shape elem E hne hfit hE => ?_⟩
  obtain ⟨h1, h2⟩ := hgen c shape elem E hne hE
  refine ⟨_, _, h1, h2, map_to_unsigned_of_fits shape hfit, ?_, ?_⟩
  · rintro d0 rest rfl
    have hd := hfit d0 (List.mem_cons_self d0 rest)
    simp only [nestedArrayOfShape, List.map_cons, List.foldr_cons, hnat d0 hd.1 hd.2]
  · rintro front dn rfl
    have hd := hfit dn (by simp)
    simp only [nestedArrayOfShape, List.map_append, List.map_cons, List.map_nil,
      List.foldr_append, List.foldr_cons, List.foldr_nil, hnat dn hd.1 hd.2]

/-! ## Record types and the two profiles -/

/-- Under the full profile the dispatch hands a record type to
`convert_record_type`, and nothing else converts it. -/
theorem FullLLVMTypeConverter.convertTypes_record (inherited : MType → Option Nat)
    (getIdentified : String → Option String) (name : String) :
    (FullLLVMTypeConverter inherited getIdentified).convertTypes (.record name)
      = match convert_record_type getIdentified name with
        | .returns (some ty) => .returns (some [ty])
        | .returns none => .returns none
        | .aborts e => .aborts e := by
  show TypeConverter.convertType.loop _ _ _ _ = _
  simp only [FullLLVMTypeConverter, LLVMTypeConverter, List.reverse_append, List.reverse_cons,
    List.reverse_nil, List.nil_append, List.cons_append, TypeConverter.convertType.loop,
    Handler.apply, MType.isVastType]
  cases convert_record_type getIdentified name with
  | returns o => cases o <;> rfl
  | aborts e => rfl

/-- C8: under the full profile, converting the record type of a given name
twice, in the context as it is at the first conversion and as it is at the
second one, the context holding the named aggregate of that name both times,
yields the same target type both times: the named aggregate that carries the
record's name. -/
theorem convert_record_type_idempotent (inherited : MType → Option Nat)
    (first second : String → Option String) (name : String)
    (h1 : first name = some name) (h2 : second name = some name) :
    (FullLLVMTypeConverter inherited first).convertTypes (.record name)
      = .returns (some [.llvmStruct name]) ∧
    (FullLLVMTypeConverter inherited second).convertTypes (.record name)
      = (FullLLVMTypeConverter inherited first).convertTypes (.record name) ∧
    convert_record_type first name = .returns (some (.llvmStruct name)) ∧
    convert_record_type second name = convert_record_type first name := by
  have hr : ∀ gi : String → Option String, gi name = some name →
      convert_record_type gi name = .returns (some (.llvmStruct name)) := by
    intro gi h
    simp [convert_record_type, h]
  rw [FullLLVMTypeConverter.convertTypes_record, FullLLVMTypeConverter.convertTypes_record,
    hr first h1, hr second h2]
  exact ⟨rfl, rfl, rfl, rfl⟩

theorem convert_record_type_idempotent_witness :
    sampleGetIdentified "S" = some "S" ∧
    (FullLLVMTypeConverter sampleInherited sampleGetIdentified).convertTypes (.record "S")
      = .returns (some [.llvmStruct "S"]) ∧
    convert_record_type sampleGetIdentified "S" = .returns (some (.llvmStruct "S")) :=
  have h := convert_record_type_idempotent sampleInherited sampleGetIdentified
    sampleGetIdentified "S" rfl rfl
  ⟨rfl, h.1, h.2.2.1⟩

/-- C9, as stated, fails: the context holds a named aggregate under the
requested name `S` that was made for another record declaration; the context
hands that struct back, the name it carries is the requested one, and
`convert_record_type` returns it instead of returning absent. -/
theorem convert_record_type_collision_counterexample :
    List.lookup "S" ([("S", 1)] : identified_structs) = some 1 ∧
    convert_record_type (identified_structs.getIdentified [("S", 1)]) "S"
      = .returns (some (.llvmStruct "S")) ∧
    convert_record_type (identified_structs.getIdentified [("S", 1)]) "S" ≠ .returns none ∧
    (FullLLVMTypeConverter sampleInherited
        (identified_structs.getIdentified [("S", 1)])).convertTypes (.record "S")
      = .returns (some [.llvmStruct "S"]) :=
  ⟨rfl, rfl, nofun, rfl⟩

/-- C9, amended: under the full profile `convert_record_type` returns absent
when the context hands back no struct, or a struct whose name is not the
requested one; a named aggregate that the context hands back under the
requested name is returned as it is, and so is the one that a look-up-or-create
context holds already, whichever record it was made for. -/
theorem convert_record_type_collision (inherited : MType → Option Nat)
    (getIdentified : String → Option String) (name : String) :
    (getIdentified name = none →
      convert_record_type getIdentified name = .returns none ∧
      (FullLLVMTypeConverter inherited getIdentified).convertTypes (.record name)
        = .returns none) ∧
    (∀ raw, getIdentified name = some raw → raw ≠ name →
      convert_record_type getIdentified name = .returns none ∧
      (FullLLVMTypeConverter inherited getIdentified).convertTypes (.record name)
        = .returns none) ∧
    (getIdentified name = some name →
      convert_record_type getIdentified name = .returns (some (.llvmStruct name)) ∧
      (FullLLVMTypeConverter inherited getIdentified).convertTypes (.record name)
        = .returns (some [.llvmStruct name])) ∧
    (∀ structs : identified_structs,
      convert_record_type structs.getIdentified name = .returns (some (.llvmStruct name)) ∧
      (FullLLVMTypeConverter inherited structs.getIdentified).convertTypes (.record name)
        = .returns (some [.llvmStruct name])) := by
  have hnone : ∀ gi : String → Option String, convert_record_type gi name = .returns none →
      (FullLLVMTypeConverter inherited gi).convertTypes (.record name) = .returns none := by
    intro gi h
    rw [FullLLVMTypeConverter.convertTypes_record, h]
  have hsome : ∀ gi : String → Option String, gi name = some name →
      convert_record_type gi name = .returns (some (.llvmStruct name)) ∧
      (FullLLVMTypeConverter inherited gi).convertTypes (.record name)
        = .returns (some [.llvmStruct name]) := by
    intro gi h
    have hr : convert_record_type gi name = .returns (some (.llvmStruct name)) := by
      simp [convert_record_type, h]
    rw [FullLLVMTypeConverter.convertTypes_record, hr]
    exact ⟨rfl, rfl⟩
  refine ⟨fun h => ?_, fun raw hraw hne => ?_, hsome getIdentified, fun structs => ?_⟩
  · have hr : convert_record_type getIdentified name = .returns none := by
      simp [convert_record_type, h]
    exact ⟨hr, hnone _ hr⟩
  · have hr : convert_record_type getIdentified name = .returns none := by
      simp [convert_record_type, hraw, hne]
    exact ⟨hr, hnone _ hr⟩
  · apply hsome
    unfold identified_structs.getIdentified
    cases List.lookup name structs <;> rfl

/-- C10: the default profile registers no conversion for record types, and a
record type does not convert under it; the full profile registers the
conversions of the default profile and then the record and the elaborated
one, and the same record type converts under it to the named aggregate that
the context holds under the record's name. -/
theorem record_type_profiles (inherited : MType → Option Nat)
    (getIdentified : String → Option String) (name : String)
    (hctx : getIdentified name = some name) :
    Handler.record ∉ (LLVMTypeConverter inherited getIdentified).conversions ∧
    (LLVMTypeConverter inherited getIdentified).convertTypes (.record name) = .returns none ∧
    (FullLLVMTypeConverter inherited getIdentified).conversions
      = (LLVMTypeConverter inherited getIdentified).conversions ++ [.record, .elaborated] ∧
    (FullLLVMTypeConverter inherited getIdentified).convertTypes (.record name)
      = .returns (some [.llvmStruct name]) := by
  refine ⟨by simp [LLVMTypeConverter], rfl, rfl, ?_⟩
  rw [FullLLVMTypeConverter.convertTypes_record]
  simp [convert_record_type, hctx]

theorem record_type_profiles_witness :
    sampleGetIdentified "S" = some "S" ∧
    (LLVMTypeConverter sampleInherited sampleGetIdentified).convertTypes (.record "S")
      = .returns none ∧
    (FullLLVMTypeConverter sampleInherited sampleGetIdentified).convertTypes (.record "S")
      = .returns (some [.llvmStruct "S"]) :=
  have h := record_type_profiles sampleInherited sampleGetIdentified "S" rfl
  ⟨rfl, h.2.1, h.2.2.2⟩

/-! ## The signature of a function -/

theorem get_conversion_signature.loop_eq_some (self : ConvertTypes) :
    ∀ (ts : List MType) (index : Nat) (conv r : signature_conversion_t),
      get_conversion_signature.loop self ts index conv = .returns (some r) →
      index + ts.length ≤ conv.remappedInputs.length →
        r.remappedInputs.length = conv.remappedInputs.length ∧
        (∀ j, j < index → r.remappedInputs[j]? = conv.remappedInputs[j]?) ∧
        (∀ j (hj : j < ts.length), ∃ l, convert_arg_t self ts[j] = .returns (some l) ∧
          r.getInputMapping (index + j) = some l)
  | [], index, conv, r, h, _ => by
    simp only [get_conversion_signature.loop, Exec.returns.injEq, Option.some.injEq] at h
    subst h
    exact ⟨rfl, fun _ _ => rfl, fun j hj => absurd hj (Nat.not_lt_zero j)⟩
  | t :: ts, index, conv, r, h, hlen => by
    simp only [get_conversion_signature.loop] at h
    simp only [List.length_cons] at hlen
    split at h
    · next cty hcty =>
      have hlen2 : index + 1 + ts.length ≤ (conv.addInputs index cty).remappedInputs.length := by
        simp only [signature_conversion_t.addInputs, List.length_set]
        omega
      obtain ⟨h1, h2, h3⟩ :=
        get_conversion_signature.loop_eq_some self ts (index + 1) _ r h hlen2
      have hset : ∀ j, j ≠ index →
          (conv.addInputs index cty).remappedInputs[j]? = conv.remappedInputs[j]? := by
        intro j hj
        simp only [signature_conversion_t.addInputs]
        exact List.getElem?_set_ne (Ne.symm hj)
      refine ⟨?_, ?_, ?_⟩
      · rw [h1]
        simp only [signature_conversion_t.addInputs, List.length_set]
      · intro j hj
        rw [h2 j (by omega), hset j (by omega)]
      · intro j hj
        cases j with
        | zero =>
          refine ⟨cty, hcty, ?_⟩
          have hidx : index < conv.remappedInputs.length := by omega
          have : r.remappedInputs[index]? = some (some cty) := by
            rw [h2 index (by omega)]
            simp only [signature_conversion_t.addInputs]
            exact List.getElem?_set_self hidx
          simp only [signature_conversion_t.getInputMapping, Nat.add_zero, this]
        | succ k =>
          obtain ⟨l, hl, hmap⟩ := h3 k (by simpa using hj)
          refine ⟨l, by simpa using hl, ?_⟩
          have : index + (k + 1) = index + 1 + k := by omega
          rw [this]
          exact hmap
    · cases h
    · cases h

theorem get_conversion_signature.loop_absent_input (self : ConvertTypes) :
    ∀ (ts : List MType) (index : Nat) (conv : signature_conversion_t),
      get_conversion_signature.loop self ts index conv = .returns none →
        ∃ t ∈ ts, convert_arg_t self t = .returns none
  | [], _, _, h => by cases h
  | t :: ts, index, conv, h => by
    simp only [get_conversion_signature.loop] at h
    split at h
    · obtain ⟨u, hu, hfu⟩ := get_conversion_signature.loop_absent_input self ts _ _ h
      exact ⟨u, List.mem_cons_of_mem t hu, hfu⟩
    · next hft => exact ⟨t, List.mem_cons_self t ts, hft⟩
    · cases h

/-- C11, as stated, fails: the second input, `hl.record`, fails `convert_arg_t`
under the default profile, yet `get_conversion_signature` does not return
absent, because converting the first input, a decayed type, aborts the run. -/
theorem get_conversion_signature_counterexample :
    convert_arg_t (LLVMTypeConverter sampleInherited sampleGetIdentified).convertTypes
        (.record "S") = .returns none ∧
    get_conversion_signature (LLVMTypeConverter sampleInherited sampleGetIdentified).convertTypes
        ⟨.fn [.decayed (.pointer (.other 32)), .record "S"] [] false⟩ false
      = .aborts .unreachable ∧
    get_conversion_signature (LLVMTypeConverter sampleInherited sampleGetIdentified).convertTypes
        ⟨.fn [.decayed (.pointer (.other 32)), .record "S"] [] false⟩ false
      ≠ .returns none :=
  ⟨rfl, rfl, nofun⟩

/-- C11, amended: for a function whose type is a `core::FunctionType` and for
which the run of `get_conversion_signature` is not aborted, the routine returns
absent, and so no signature, if and only if some input type fails
`convert_arg_t`; and when it returns a signature, the types recorded at every
argument index `i` are exactly `convert_arg_t` of the `i`-th input type. -/
theorem get_conversion_signature_spec (c : TypeConverter) (fn : FunctionOpInterface)
    (variadic : Bool) (inputs results : List MType) (isVarArg : Bool)
    (hfn : fn.getFunctionType = .fn inputs results isVarArg)
    (hrun : ∀ e, get_conversion_signature c.convertTypes fn variadic ≠ .aborts e) :
    (get_conversion_signature c.convertTypes fn variadic = .returns none ↔
      ∃ t ∈ inputs, convert_arg_t c.convertTypes t = .returns none) ∧
    (∀ conversion, get_conversion_signature c.convertTypes fn variadic
        = .returns (some conversion) →
      ∀ i (hi : i < inputs.length), ∃ l,
        convert_arg_t c.convertTypes inputs[i] = .returns (some l) ∧
        conversion.getInputMapping i = some l) := by
  have hdef : get_conversion_signature c.convertTypes fn variadic
      = get_conversion_signature.loop c.convertTypes inputs 0
          (signature_conversion_t.create inputs.length) := by
    simp only [get_conversion_signature, FunctionOpInterface.getNumArguments, hfn]
  have hsome : ∀ conversion, get_conversion_signature c.convertTypes fn variadic
        = .returns (some conversion) →
      ∀ i (hi : i < inputs.length), ∃ l,
        convert_arg_t c.convertTypes inputs[i] = .returns (some l) ∧
        conversion.getInputMapping i = some l := by
    intro conversion hconv i hi
    rw [hdef] at hconv
    obtain ⟨_, _, h3⟩ := get_conversion_signature.loop_eq_some c.convertTypes inputs 0 _ _ hconv
      (by simp [signature_conversion_t.create])
    obtain ⟨l, hl, hmap⟩ := h3 i hi
    exact ⟨l, hl, by simpa using hmap⟩
  refine ⟨⟨fun h => ?_, fun h => ?_⟩, hsome⟩
  · rw [hdef] at h
    exact get_conversion_signature.loop_absent_input c.convertTypes inputs _ _ h
  · cases hres : get_conversion_signature c.convertTypes fn variadic with
    | aborts e => exact absurd hres (hrun e)
    | returns o =>
      cases o with
      | none => rfl
      | some conversion =>
        obtain ⟨t, ht, hnone⟩ := h
        obtain ⟨i, hi, rfl⟩ := List.getElem_of_mem ht
        obtain ⟨l, hl, _⟩ := hsome conversion hres i hi
        rw [hnone] at hl
        cases hl

theorem get_conversion_signature_spec_witness :
    (∀ e, get_conversion_signature
        (LLVMTypeConverter sampleInherited sampleGetIdentified).convertTypes
        ⟨.fn [.lvalue (.other 32), .pointer (.other 8)] [] false⟩ true ≠ .aborts e) ∧
    (get_conversion_signature
        (LLVMTypeConverter sampleInherited sampleGetIdentified).convertTypes
        ⟨.fn [.lvalue (.other 32), .pointer (.other 8)] [] false⟩ true = .returns none ↔
      ∃ t ∈ [MType.lvalue (.other 32), .pointer (.other 8)],
        convert_arg_t (LLVMTypeConverter sampleInherited sampleGetIdentified).convertTypes t
          = .returns none) ∧
    get_conversion_signature
        (LLVMTypeConverter sampleInherited sampleGetIdentified).convertTypes
        ⟨.fn [.lvalue (.other 32), .pointer (.other 8)] [] false⟩ true
      = .returns (some ⟨[some [.other 32], some [.llvmPtr (.other 8)]],
          [.other 32, .llvmPtr (.other 8)]⟩) :=
  have hrun : ∀ e, get_conversion_signature
      (LLVMTypeConverter sampleInherited sampleGetIdentified).convertTypes
      ⟨.fn [.lvalue (.other 32), .pointer (.other 8)] [] false⟩ true ≠ .aborts e :=
    fun _ hh => Exec.noConfusion
      (hh : Exec.returns (some (⟨[some [MType.other 32], some [.llvmPtr (.other 8)]],
          [.other 32, .llvmPtr (.other 8)]⟩ : signature_conversion_t)) = _)
  ⟨hrun,
    (get_conversion_signature_spec (LLVMTypeConverter sampleInherited sampleGetIdentified)
      ⟨.fn [.lvalue (.other 32), .pointer (.other 8)] [] false⟩ true
      [.lvalue (.other 32), .pointer (.other 8)] [] false rfl hrun).1,
    rfl⟩

/-! ## No lvalue and no decayed variant is left in a converted type -/

theorem anyHasLvalueOrDecayed_append (a b : List MType) :
    anyHasLvalueOrDecayed (a ++ b) = (anyHasLvalueOrDecayed a || anyHasLvalueOrDecayed b) := by
  induction a with
  | nil => simp [anyHasLvalueOrDecayed]
  | cons x xs ih => simp [anyHasLvalueOrDecayed, ih, Bool.or_assoc]

theorem convert_arg_t_clean {self : ConvertTypes} (hself : CleanResults self) {t : MType}
    {l : types_t} (h : convert_arg_t self t = .returns (some l)) :
    anyHasLvalueOrDecayed l = false := by
  cases t <;> simp only [convert_arg_t, convert_type_to_types, do_conversion] at h <;>
    exact hself _ _ h

theorem on_types.loop_clean {f : MType → Exec maybe_types_t}
    (hf : ∀ t l, f t = .returns (some l) → anyHasLvalueOrDecayed l = false) :
    ∀ (ts : List MType) (out r : types_t), on_types.loop f ts out = .returns (some r) →
      anyHasLvalueOrDecayed out = false → anyHasLvalueOrDecayed r = false
  | [], out, r, h, hout => by
    simp only [on_types.loop, Exec.returns.injEq, Option.some.injEq] at h
    exact h ▸ hout
  | t :: ts, out, r, h, hout => by
    simp only [on_types.loop] at h
    split at h
    · next cty hcty =>
      apply on_types.loop_clean hf ts _ r h
      rw [appender, anyHasLvalueOrDecayed_append, hout, hf t cty hcty]
      rfl
    · cases h
    · cases h

theorem make_array.loop_keeps_clean (shape : List Int) :
    ∀ (k : Nat) (out r : MType), make_array.loop shape k out = .returns r →
      out.hasLvalueOrDecayed = false → r.hasLvalueOrDecayed = false
  | 0, out, r, h, hout => by
    simp only [make_array.loop, Exec.returns.injEq] at h
    exact h ▸ hout
  | k + 1, out, r, h, hout => by
    simp only [make_array.loop] at h
    split at h
    · exact make_array.loop_keeps_clean shape k _ r h (by simpa [MType.hasLvalueOrDecayed] using hout)
    · cases h

theorem make_array_clean {shape : List Int} {t r : MType}
    (h : make_array shape t = .returns r) (ht : t.hasLvalueOrDecayed = false) :
    r.hasLvalueOrDecayed = false := by
  unfold make_array at h
  split at h
  · cases h
  · exact make_array.loop_keeps_clean shape _ _ r h (by simpa [MType.hasLvalueOrDecayed] using ht)

theorem convert_type_to_type_clean {self : ConvertTypes} (hself : CleanResults self)
    {t x : MType} (h : convert_type_to_type self t = .returns (some x)) :
    x.hasLvalueOrDecayed = false := by
  have := hself _ _ (convert_type_to_type_eq_some.mp h)
  simpa [anyHasLvalueOrDecayed] using this

theorem convert_fn_t_clean {self : ConvertTypes} (hself : CleanResults self)
    {ins outs : List MType} {va : Bool} {ty : MType}
    (h : convert_fn_t self ins outs va = .returns (some ty)) :
    ty.hasLvalueOrDecayed = false := by
  unfold convert_fn_t at h
  split at h
  · cases h
  · next a_res ha =>
    split at h
    · cases h
    · next r_res hr =>
      split at h
      · next a r =>
        have hac : anyHasLvalueOrDecayed a = false :=
          on_types.loop_clean (fun t l => convert_arg_t_clean hself) ins [] a ha rfl
        have hrc : anyHasLvalueOrDecayed r = false :=
          on_types.loop_clean
            (fun t l hl => convert_arg_t_clean hself
              (by rw [← convert_ret_t_eq_convert_arg_t]; exact hl)) outs [] r hr rfl
        split at h
        · split at h
          · cases h
            simp [MType.hasLvalueOrDecayed, hac]
          · cases h
            simp only [anyHasLvalueOrDecayed, Bool.or_eq_false_iff] at hrc
            simp [MType.hasLvalueOrDecayed, hac, hrc.1]
        · cases h
      · cases h

theorem Handler.apply_clean (gi : String → Option String) {self : ConvertTypes}
    (hself : CleanResults self) (h : Handler) (t ty : MType)
    (hty : h.apply gi self t = .returns (some ty)) : ty.hasLvalueOrDecayed = false := by
  cases h <;> cases t <;> simp only [Handler.apply] at hty <;>
    first
    | (cases hty; rfl)
    | cases hty
    | (obtain ⟨x, hx, hp⟩ := Maybe.chain_eq_some hty
       have hxc := convert_type_to_type_clean hself hx
       first
       | (rw [(make_ptr_type_eq_returns hp).2]; simpa [MType.hasLvalueOrDecayed] using hxc)
       | exact make_array_clean hp hxc)
    | exact convert_fn_t_clean hself hty
    | (rw [(convert_record_type_eq_some hty).2]; rfl)
    | exact convert_type_to_type_clean hself hty

theorem TypeConverter.convertType.dispatch_clean (c : TypeConverter) {self : ConvertTypes}
    (hself : CleanResults self) (t : MType) :
    ∀ (hs : List Handler) (l : types_t),
      TypeConverter.convertType.loop c self t hs = .returns (some l) →
        anyHasLvalueOrDecayed l = false
  | [], l, h => by
    simp only [TypeConverter.convertType.loop] at h
    split at h
    · cases h
    · split at h
      · cases h; rfl
      · cases h
  | hd :: hs, l, h => by
    simp only [TypeConverter.convertType.loop] at h
    split at h
    · next ty hty =>
      cases h
      simp [anyHasLvalueOrDecayed, Handler.apply_clean c.getIdentified hself hd t ty hty]
    · exact TypeConverter.convertType.dispatch_clean c hself t hs l h
    · cases h

theorem TypeConverter.convertTypesAux_clean (c : TypeConverter) :
    ∀ n : Nat, CleanResults (c.convertTypesAux n)
  | 0 => by
    intro t l h
    cases h
  | n + 1 => by
    intro t l h
    exact TypeConverter.convertType.dispatch_clean c (c.convertTypesAux_clean n) t _ l h

theorem TypeConverter.convertTypes_clean (c : TypeConverter) : CleanResults c.convertTypes :=
  fun t l h => c.convertTypesAux_clean (t.depth + 1) t l h

theorem anyHasLvalueOrDecayed_eq_false {l : List MType} (h : anyHasLvalueOrDecayed l = false) :
    ∀ x ∈ l, x.hasLvalueOrDecayed = false := by
  induction l with
  | nil => intro x hx; cases hx
  | cons a as ih =>
    simp only [anyHasLvalueOrDecayed, Bool.or_eq_false_iff] at h
    intro x hx
    rcases List.mem_cons.mp hx with rfl | hx
    · exact h.1
    · exact ih h.2 x hx

/-- Under the default profile the dispatch hands an lvalue type to
`convert_lvalue_type`, and nothing else converts it. -/
theorem LLVMTypeConverter.convertTypes_lvalue (inherited : MType → Option Nat)
    (getIdentified : String → Option String) (elem : MType) :
    (LLVMTypeConverter inherited getIdentified).convertTypes (.lvalue elem)
      = match convert_lvalue_type
          (LLVMTypeConverter inherited getIdentified).convertTypes elem with
        | .returns (some ty) => .returns (some [ty])
        | .returns none => .returns none
        | .aborts e => .aborts e := by
  rw [TypeConverter.convertTypes_eq]
  generalize (LLVMTypeConverter inherited getIdentified).convertTypes = self
  show TypeConverter.convertType.loop _ _ _ _ = _
  simp only [LLVMTypeConverter, List.reverse_cons, List.reverse_nil, List.nil_append,
    List.cons_append, TypeConverter.convertType.loop, Handler.apply, MType.isVastType]
  cases convert_lvalue_type self elem with
  | returns o => cases o <;> rfl
  | aborts e => rfl

/-- Under the full profile the dispatch hands an elaborated type to
`convert_elaborated_type`, and nothing else converts it. -/
theorem FullLLVMTypeConverter.convertTypes_elaborated (inherited : MType → Option Nat)
    (getIdentified : String → Option String) (elem : MType) :
    (FullLLVMTypeConverter inherited getIdentified).convertTypes (.elaborated elem)
      = match convert_elaborated_type
          (FullLLVMTypeConverter inherited getIdentified).convertTypes elem with
        | .returns (some ty) => .returns (some [ty])
        | .returns none => .returns none
        | .aborts e => .aborts e := by
  rw [TypeConverter.convertTypes_eq]
  generalize (FullLLVMTypeConverter inherited getIdentified).convertTypes = self
  show TypeConverter.convertType.loop _ _ _ _ = _
  simp only [FullLLVMTypeConverter, LLVMTypeConverter, List.reverse_append, List.reverse_cons,
    List.reverse_nil, List.nil_append, List.cons_append, TypeConverter.convertType.loop,
    Handler.apply, MType.isVastType]
  cases convert_elaborated_type self elem with
  | returns o => cases o <;> rfl
  | aborts e => rfl

/-- C17: a type that the conversion produces contains no lvalue and no decayed
variant at any nesting depth; and the storage type lvalue-of-int of a local,
the integer type converting to the type `k`, converts to the pointer to `k`. -/
theorem convertTypes_no_lvalue_no_decayed (c : TypeConverter) (t : MType) (l : types_t)
    (h : c.convertTypes t = .returns (some l)) :
    (∀ x ∈ l, x.hasLvalueOrDecayed = false) ∧
    (∀ intTy k : Nat, c.inherited (.other intTy) = some k →
      (LLVMTypeConverter c.inherited c.getIdentified).convertTypes (.lvalue (.other intTy))
        = .returns (some [.llvmPtr (.other k)]) ∧
      (MType.llvmPtr (.other k)).hasLvalueOrDecayed = false) := by
  refine ⟨anyHasLvalueOrDecayed_eq_false (c.convertTypes_clean t l h), fun intTy k hk => ⟨?_, rfl⟩⟩
  have hint : (LLVMTypeConverter c.inherited c.getIdentified).convertTypes (.other intTy)
      = .returns (some [.other k]) := by
    show TypeConverter.convertType.loop _ _ _ _ = _
    simp [LLVMTypeConverter, TypeConverter.convertType.loop, Handler.apply, MType.isVastType, hk]
  have hX : convert_type_to_type (LLVMTypeConverter c.inherited c.getIdentified).convertTypes
      (.other intTy) = .returns (some (.other k)) := convert_type_to_type_eq_some.mpr hint
  rw [LLVMTypeConverter.convertTypes_lvalue]
  unfold convert_lvalue_type
  rw [Maybe.chain_present make_ptr_type hX]
  rfl

theorem convertTypes_no_lvalue_no_decayed_witness :
    (LLVMTypeConverter sampleInherited sampleGetIdentified).convertTypes
        (.fn [.lvalue (.other 32), .pointer (.lvalue (.other 8))] [] false)
      = .returns (some [.llvmFn .llvmVoid [.other 32, .llvmPtr (.llvmPtr (.other 8))] false]) ∧
    (∀ x ∈ [MType.llvmFn .llvmVoid [.other 32, .llvmPtr (.llvmPtr (.other 8))] false],
      x.hasLvalueOrDecayed = false) ∧
    (LLVMTypeConverter sampleInherited sampleGetIdentified).convertTypes (.lvalue (.other 32))
      = .returns (some [.llvmPtr (.other 32)]) :=
  have h := convertTypes_no_lvalue_no_decayed
    (LLVMTypeConverter sampleInherited sampleGetIdentified)
    (.fn [.lvalue (.other 32), .pointer (.lvalue (.other 8))] [] false)
    [.llvmFn .llvmVoid [.other 32, .llvmPtr (.llvmPtr (.other 8))] false] rfl
  ⟨rfl, h.1, (h.2 32 32 rfl).1⟩

/-- C18: for every decayed type, whatever its inner type, `convert_decayed`
produces no target type: the conversion always fails, by aborting the run at
`VAST_UNREACHABLE`, and so does the conversion of the type under both profiles. -/
theorem convert_decayed_fails (inherited : MType → Option Nat)
    (getIdentified : String → Option String) (elem : MType) :
    convert_decayed (.decayed elem) = .aborts .unreachable ∧
    (∀ ty, convert_decayed (.decayed elem) ≠ .returns (some ty)) ∧
    (LLVMTypeConverter inherited getIdentified).convertTypes (.decayed elem)
      = .aborts .unreachable ∧
    (FullLLVMTypeConverter inherited getIdentified).convertTypes (.decayed elem)
      = .aborts .unreachable :=
  ⟨rfl, nofun, rfl, rfl⟩

/-- C19: for every unranked memory-region type, whatever its element type,
`convert_memref_type` returns absent; this includes an element type that
converts, for which the ranked memory-region type of a non-empty shape does
convert. -/
theorem convert_unranked_memref_type_absent (c : TypeConverter) (elem : MType) :
    convert_unranked_memref_type elem = .returns none ∧
    (∀ X, convert_type_to_type c.convertTypes elem = .returns (some X) →
      convert_unranked_memref_type elem = .returns none ∧
      ∀ shape : List Int, shape ≠ [] →
        convert_memref_type c.convertTypes shape elem
          = .returns (some (nestedArrayOfShape (shape.map to_unsigned) X))) ∧
    (c.inherited (.unrankedMemref elem) = none →
      (LLVMTypeConverter c.inherited c.getIdentified).convertTypes (.unrankedMemref elem)
        = .returns none) := by
  refine ⟨rfl, fun X hX => ⟨rfl, fun shape hne => ?_⟩, fun hinh => ?_⟩
  · unfold convert_memref_type
    rw [Maybe.chain_present (make_array shape) hX, make_array_eq shape X hne]
  · show TypeConverter.convertType.loop _ _ _ _ = _
    simp [LLVMTypeConverter, TypeConverter.convertType.loop, Handler.apply, MType.isVastType,
      convert_unranked_memref_type, hinh]

/-- C20: under the full profile `convert_elaborated_type` on the elaborated type
with inner type `T` returns exactly `convert_type_to_type(T)`: one level is
unwrapped and nothing is wrapped around the result, the result is absent
exactly when the conversion of `T` is, and the elaborated type converts to
what `T` converts to. -/
theorem convert_elaborated_type_unwraps (inherited : MType → Option Nat)
    (getIdentified : String → Option String) (T : MType) :
    convert_elaborated_type (FullLLVMTypeConverter inherited getIdentified).convertTypes T
      = convert_type_to_type (FullLLVMTypeConverter inherited getIdentified).convertTypes T ∧
    (convert_elaborated_type (FullLLVMTypeConverter inherited getIdentified).convertTypes T
        = .returns none ↔
      convert_type_to_type (FullLLVMTypeConverter inherited getIdentified).convertTypes T
        = .returns none) ∧
    (∀ X, convert_type_to_type (FullLLVMTypeConverter inherited getIdentified).convertTypes T
        = .returns (some X) →
      (FullLLVMTypeConverter inherited getIdentified).convertTypes (.elaborated T)
        = .returns (some [X]) ∧
      (FullLLVMTypeConverter inherited getIdentified).convertTypes (.elaborated T)
        = (FullLLVMTypeConverter inherited getIdentified).convertTypes T) ∧
    (convert_type_to_type (FullLLVMTypeConverter inherited getIdentified).convertTypes T
        = .returns none →
      (FullLLVMTypeConverter inherited getIdentified).convertTypes (.elaborated T)
        = .returns none) := by
  refine ⟨rfl, Iff.rfl, fun X hX => ?_, fun hT => ?_⟩
  · have h1 : (FullLLVMTypeConverter inherited getIdentified).convertTypes (.elaborated T)
        = .returns (some [X]) := by
      rw [FullLLVMTypeConverter.convertTypes_elaborated]
      unfold convert_elaborated_type
      rw [hX]
    exact ⟨h1, by rw [h1, convert_type_to_type_eq_some.mp hX]⟩
  · rw [FullLLVMTypeConverter.convertTypes_elaborated]
    unfold convert_elaborated_type
    rw [hT]

/-! ## The execution plans of the named pipelines -/

/-- C12: the execution plan built for the `to-ll` composite is exactly the
seven passes function lowering, variable lowering, control-flow lowering,
address-computation lowering, argument-to-local-storage lowering,
value-category lowering and lazy-region materialization, in that order, each
once and no other pass; every traversal bound of at least two gives this plan. -/
theorem to_ll_execution_plan :
    execution_plan .to_ll
      = .ok [.createHLToLLFuncPass, .createHLToLLVarsPass, .createHLToLLCFPass,
          .createHLToLLGEPsPass, .createFnArgsToAllocaPass, .createLowerValueCategoriesPass,
          .createHLEmitLazyRegionsPass] ∧
    [PassCtor.createHLToLLFuncPass, .createHLToLLVarsPass, .createHLToLLCFPass,
      .createHLToLLGEPsPass, .createFnArgsToAllocaPass, .createLowerValueCategoriesPass,
      .createHLEmitLazyRegionsPass].Nodup ∧
    (∀ n, schedule_on (n + 2) [] .to_ll ⟨[], []⟩ = schedule_on 18 [] .to_ll ⟨[], []⟩) :=
  ⟨rfl, by decide, fun _ => rfl⟩

/-- C13: in the execution plan built for the `simplify` composite, whose
children `ude` and `dce` both declare `canonicalize` as a prerequisite, the
canonicalize pass (splice-trailing-scopes) occurs exactly once, before the
`ude` pass and before the `dce` pass. -/
theorem simplify_execution_plan :
    (pipeline_step_builder.build .ude).dependencies = [.canonicalize] ∧
    (pipeline_step_builder.build .dce).dependencies = [.canonicalize] ∧
    ∃ plan, execution_plan .simplify = .ok plan ∧
      plan = [.createHLToHLBI, .createSpliceTrailingScopes, .createUDEPass, .createDCEPass,
        .createLowerElaboratedTypesPass, .createLowerTypeDefsPass] ∧
      plan.count .createSpliceTrailingScopes = 1 ∧
      PassCtor.createUDEPass ∈ plan ∧ PassCtor.createDCEPass ∈ plan ∧
      plan.indexOf .createSpliceTrailingScopes < plan.indexOf .createUDEPass ∧
      plan.indexOf .createSpliceTrailingScopes < plan.indexOf .createDCEPass ∧
      (∀ n, schedule_on (n + 3) [] .simplify ⟨[], []⟩
        = schedule_on 18 [] .simplify ⟨[], []⟩) :=
  ⟨rfl, rfl, _, rfl, rfl, by decide, by decide, by decide, by decide, by decide, fun _ => rfl⟩

/-- C14: in the execution plan built for the `stdtypes` step every pass of its
prerequisite `desugar` comes before the type-lowering pass, and within
`desugar` the declared prerequisite lower-elaborated-types comes before the
child lower-typedefs: the plan is lower-elaborated-types, lower-typedefs,
lower-types. -/
theorem stdtypes_execution_plan :
    (pipeline_step_builder.build .stdtypes).dependencies = [.desugar] ∧
    (pipeline_step_builder.build .desugar).dependencies = [.lower_elaborated_types] ∧
    execution_plan .desugar
      = .ok [.createLowerElaboratedTypesPass, .createLowerTypeDefsPass] ∧
    ∃ plan, execution_plan .stdtypes = .ok plan ∧
      plan = [.createLowerElaboratedTypesPass, .createLowerTypeDefsPass,
        .createHLLowerTypesPass] ∧
      (∀ p ∈ [PassCtor.createLowerElaboratedTypesPass, .createLowerTypeDefsPass],
        plan.indexOf p < plan.indexOf .createHLLowerTypesPass) ∧
      plan.indexOf .createLowerElaboratedTypesPass
        < plan.indexOf .createLowerTypeDefsPass ∧
      (∀ n, schedule_on (n + 3) [] .stdtypes ⟨[], []⟩
        = schedule_on 18 [] .stdtypes ⟨[], []⟩) :=
  ⟨rfl, rfl, rfl, _, rfl, rfl, by decide, by decide, fun _ => rfl⟩

/-! ## Declarations of the code generator -/

theorem symbol_table.lookup_append_of_none {α : Type} (name : String) (v : α) :
    ∀ table : symbol_table α, symbol_table.lookup table name = none →
      symbol_table.lookup (table ++ [(name, v)]) name = some v
  | [], _ => by simp [symbol_table.lookup]
  | (n, w) :: rest, h => by
    simp only [symbol_table.lookup] at h
    split at h
    · cases h
    · next hne =>
      simp only [List.cons_append, symbol_table.lookup, hne, if_false]
      exact symbol_table.lookup_append_of_none name v rest h

/-- C15: for each of `declare_type`, `define_type` and `declare_enum_constant`,
when the name is already registered in the declaration table the call returns
the registered declaration and changes nothing, the table included; and of
two calls in a row for a name that was not registered, the second returns the
declaration that the first registered and leaves the state as it is: a lookup
of the name yields the first registration before and after it. -/
theorem declare_registered_returns_first (b : CodeGenBuilderMixin) :
    (∀ loc name decl, symbol_table.lookup b.context.type_decls name = some decl →
      declare_type b loc name = (decl, b)) ∧
    (∀ loc type name d, symbol_table.lookup b.context.type_defs name = some d →
      define_type b loc type name = (d, b)) ∧
    (∀ (enum_constant : EnumConstantOp) decl,
      symbol_table.lookup b.context.enum_constants enum_constant.name = some decl →
      declare_enum_constant b enum_constant = (decl, b)) ∧
    (∀ loc loc2 name, symbol_table.lookup b.context.type_decls name = none →
      symbol_table.lookup (declare_type b loc name).2.context.type_decls name
        = some (declare_type b loc name).1 ∧
      declare_type (declare_type b loc name).2 loc2 name
        = ((declare_type b loc name).1, (declare_type b loc name).2)) ∧
    (∀ loc loc2 type type2 name, symbol_table.lookup b.context.type_defs name = none →
      symbol_table.lookup (define_type b loc type name).2.context.type_defs name
        = some (define_type b loc type name).1 ∧
      define_type (define_type b loc type name).2 loc2 type2 name
        = ((define_type b loc type name).1, (define_type b loc type name).2)) ∧
    (∀ (first second : EnumConstantOp), second.name = first.name →
      symbol_table.lookup b.context.enum_constants first.name = none →
      symbol_table.lookup (declare_enum_constant b first).2.context.enum_constants first.name
        = some first ∧
      declare_enum_constant (declare_enum_constant b first).2 second
        = (first, (declare_enum_constant b first).2)) := by
  have hdt : ∀ (b : CodeGenBuilderMixin) loc name decl,
      symbol_table.lookup b.context.type_decls name = some decl →
      declare_type b loc name = (decl, b) := by
    intro b loc name decl h
    simp only [declare_type, h]
  have hdf : ∀ (b : CodeGenBuilderMixin) loc type name d,
      symbol_table.lookup b.context.type_defs name = some d →
      define_type b loc type name = (d, b) := by
    intro b loc type name d h
    simp only [define_type, h]
  have hec : ∀ (b : CodeGenBuilderMixin) (enum_constant : EnumConstantOp) decl,
      symbol_table.lookup b.context.enum_constants enum_constant.name = some decl →
      declare_enum_constant b enum_constant = (decl, b) := by
    intro b enum_constant decl h
    simp only [declare_enum_constant, h]
  refine ⟨hdt b, hdf b, hec b, ?_, ?_, ?_⟩
  · intro loc loc2 name h
    have h1 : declare_type b loc name
        = (⟨b.created, loc, name⟩, ⟨b.created + 1,
            ⟨b.context.type_decls ++ [(name, ⟨b.created, loc, name⟩)], b.context.type_defs,
              b.context.enum_decls, b.context.enum_constants, b.context.errors⟩⟩) := by
      simp only [declare_type, h, symbol_table.declare]
    have h2 := symbol_table.lookup_append_of_none name
      (⟨b.created, loc, name⟩ : TypeDeclOp) b.context.type_decls h
    rw [h1]
    exact ⟨h2, hdt _ loc2 name _ h2⟩
  · intro loc loc2 type type2 name h
    have h1 : define_type b loc type name
        = (⟨b.created, loc, name, type⟩, ⟨b.created + 1,
            ⟨b.context.type_decls, b.context.type_defs ++ [(name, ⟨b.created, loc, name, type⟩)],
              b.context.enum_decls, b.context.enum_constants, b.context.errors⟩⟩) := by
      simp only [define_type, h, symbol_table.declare]
    have h2 := symbol_table.lookup_append_of_none name
      (⟨b.created, loc, name, type⟩ : TypeDefOp) b.context.type_defs h
    rw [h1]
    exact ⟨h2, hdf _ loc2 type2 name _ h2⟩
  · intro first second hname h
    have h1 : declare_enum_constant b first
        = (first, ⟨b.created,
            ⟨b.context.type_decls, b.context.type_defs, b.context.enum_decls,
              b.context.enum_constants ++ [(first.name, first)], b.context.errors⟩⟩) := by
      simp only [declare_enum_constant, h, symbol_table.declare]
    have h2 := symbol_table.lookup_append_of_none first.name first b.context.enum_constants h
    rw [h1]
    exact ⟨h2, hec _ second first (by rw [hname]; exact h2)⟩

/-- C16, as stated, fails: `declare_type` for a name that is registered
already (here by a first call) reports no error. -/
theorem declare_error_counterexample :
    symbol_table.lookup (declare_type emptyCodeGen 0 "S").2.context.type_decls "S"
      = some ⟨0, 0, "S"⟩ ∧
    (declare_type emptyCodeGen 0 "S").2.context.errors = [] ∧
    (declare_type (declare_type emptyCodeGen 0 "S").2 1 "S").2.context.errors = [] :=
  ⟨rfl, rfl, rfl⟩

/-- C16, amended: registering an enum declaration with `declare_enum` under a
name that is registered already reports the error "multiple enum declarations
with the same name" through the context, for every such registration;
`declare_type`, `define_type` and `declare_enum_constant` under a name that is
registered already return the registered declaration and report nothing. -/
theorem declare_error_reports (b : CodeGenBuilderMixin) :
    (∀ loc name type constants d, symbol_table.lookup b.context.enum_decls name = some d →
      (declare_enum b loc name type constants).2.context.errors
        = b.context.errors ++ ["error: multiple enum declarations with the same name"]) ∧
    (∀ loc name decl, symbol_table.lookup b.context.type_decls name = some decl →
      (declare_type b loc name).2.context.errors = b.context.errors) ∧
    (∀ loc type name d, symbol_table.lookup b.context.type_defs name = some d →
      (define_type b loc type name).2.context.errors = b.context.errors) ∧
    (∀ (enum_constant : EnumConstantOp) decl,
      symbol_table.lookup b.context.enum_constants enum_constant.name = some decl →
      (declare_enum_constant b enum_constant).2.context.errors = b.context.errors) := by
  refine ⟨?_, ?_, ?_, ?_⟩
  · intro loc name type constants d h
    simp only [declare_enum, symbol_table.declare, h, CodeGenContext.error]
  · intro loc name decl h
    simp only [declare_type, h]
  · intro loc type name d h
    simp only [define_type, h]
  · intro enum_constant decl h
    simp only [declare_enum_constant, h]

/-! ## The signature of a function and its converted type -/

theorem flatMap_range_eq_of_singletons {α : Type} :
    ∀ (ps : List α) (g : Nat → List α), (∀ j (h : j < ps.length), g j = [ps[j]]) →
      (List.range ps.length).flatMap g = ps := by
  intro ps
  induction ps using List.reverseRecOn with
  | nil => intro g _; rfl
  | append_singleton front a ih =>
    intro g hg
    have hlen : (front ++ [a]).length = front.length + 1 := by simp
    rw [hlen, List.range_succ, List.flatMap_append, List.flatMap_singleton]
    have h1 : (List.range front.length).flatMap g = front := by
      apply ih
      intro j hj
      have := hg j (by rw [hlen]; omega)
      rw [this, List.getElem_append_left hj]
    have h2 : g front.length = [a] := by
      have := hg front.length (by rw [hlen]; omega)
      rw [this]
      simp
    rw [h1, h2]

/-- The loop of `on_types` over the inputs and the loop of
`get_conversion_signature` run over the same conversions: when the first one
hands back its list, the second one hands back a signature that records the
same types, input by input. -/
theorem get_conversion_signature.loop_of_on_types {self : ConvertTypes}
    (hself : SingleResults self) :
    ∀ (ts : List MType) (index : Nat) (conv : signature_conversion_t) (out a : types_t),
      on_types.loop (convert_arg_t self) ts out = .returns (some a) →
      index + ts.length ≤ conv.remappedInputs.length →
        ∃ r ps, a = out ++ ps ∧
          get_conversion_signature.loop self ts index conv = .returns (some r) ∧
          r.argTypes = conv.argTypes ++ ps ∧
          r.remappedInputs.length = conv.remappedInputs.length ∧
          ps.length = ts.length ∧
          (∀ j, j < index → r.remappedInputs[j]? = conv.remappedInputs[j]?) ∧
          (∀ j (hj : j < ps.length), r.getInputMapping (index + j) = some [ps[j]])
  | [], index, conv, out, a, h, _ => by
    simp only [on_types.loop, Exec.returns.injEq, Option.some.injEq] at h
    refine ⟨conv, [], by simp [h], rfl, by simp, rfl, rfl, fun _ _ => rfl, ?_⟩
    intro j hj
    exact absurd hj (Nat.not_lt_zero j)
  | t :: ts, index, conv, out, a, h, hlen => by
    simp only [on_types.loop] at h
    simp only [List.length_cons] at hlen
    split at h
    · next cty hcty =>
      obtain ⟨p, rfl⟩ := convert_arg_t_single hself hcty
      have hlen2 : index + 1 + ts.length ≤ (conv.addInputs index [p]).remappedInputs.length := by
        simp only [signature_conversion_t.addInputs, List.length_set]
        omega
      obtain ⟨r, ps, ha, hr, harg, hl, hpl, hlow, hmap⟩ :=
        get_conversion_signature.loop_of_on_types hself ts (index + 1)
          (conv.addInputs index [p]) _ a h hlen2
      refine ⟨r, p :: ps, ?_, ?_, ?_, ?_, by simp [hpl], ?_, ?_⟩
      · rw [ha, appender]
        simp
      · simp only [get_conversion_signature.loop, hcty]
        exact hr
      · rw [harg]
        simp [signature_conversion_t.addInputs]
      · rw [hl]
        simp only [signature_conversion_t.addInputs, List.length_set]
      · intro j hj
        rw [hlow j (by omega)]
        simp only [signature_conversion_t.addInputs]
        exact List.getElem?_set_ne (by omega)
      · intro j hj
        cases j with
        | zero =>
          have hidx : index < conv.remappedInputs.length := by omega
          have : r.remappedInputs[index]? = some (some [p]) := by
            rw [hlow index (by omega)]
            simp only [signature_conversion_t.addInputs]
            exact List.getElem?_set_self hidx
          simp only [signature_conversion_t.getInputMapping, Nat.add_zero, this,
            List.getElem_cons_zero]
        | succ k =>
          have hk : k < ps.length := by simpa using hj
          have := hmap k hk
          have hidx : index + (k + 1) = index + 1 + k := by omega
          rw [hidx, this]
          simp
    · cases h
    · cases h

theorem convert_fn_t_eq_some_params {self : ConvertTypes} {ins outs : List MType} {va : Bool}
    {ty : MType} (h : convert_fn_t self ins outs va = .returns (some ty)) :
    ∃ res a, on_types ins (convert_arg_t self) = .returns (some a) ∧ ty = .llvmFn res a va := by
  cases ha : on_types ins (convert_arg_t self) with
  | aborts e => simp [convert_fn_t, ha] at h
  | returns a_res =>
    cases hr : on_types outs (convert_ret_t self) with
    | aborts e => simp [convert_fn_t, ha, hr] at h
    | returns r_res =>
      cases a_res with
      | none => simp [convert_fn_t, ha, hr] at h
      | some a =>
        cases r_res with
        | none => simp [convert_fn_t, ha, hr] at h
        | some r =>
          simp only [convert_fn_t, ha, hr] at h
          split at h
          · split at h
            · cases h; exact ⟨_, a, rfl, rfl⟩
            · cases h; exact ⟨_, a, rfl, rfl⟩
          · cases h

/-- C21: for a function type on which `convert_fn_t` succeeds,
`get_conversion_signature` on a function of that type succeeds too, and the
in-order concatenation of the types it records for the argument indices
0, 1, ... is the parameter list of the target function type that
`convert_fn_t` returns; so is the list of converted argument types it holds. -/
theorem get_conversion_signature_matches_convert_fn_t (c : TypeConverter)
    (fn : FunctionOpInterface) (variadic : Bool) (inputs results : List MType)
    (isVarArg : Bool) (ty : MType)
    (hfn : fn.getFunctionType = .fn inputs results isVarArg)
    (h : convert_fn_t c.convertTypes inputs results isVarArg = .returns (some ty)) :
    ∃ conversion res params,
      get_conversion_signature c.convertTypes fn variadic = .returns (some conversion) ∧
      ty = .llvmFn res params isVarArg ∧
      conversion.recordedTypes = params ∧
      conversion.argTypes = params := by
  obtain ⟨res, a, ha, hty⟩ := convert_fn_t_eq_some_params h
  have hdef : get_conversion_signature c.convertTypes fn variadic
      = get_conversion_signature.loop c.convertTypes inputs 0
          (signature_conversion_t.create inputs.length) := by
    simp only [get_conversion_signature, FunctionOpInterface.getNumArguments, hfn]
  obtain ⟨r, ps, hps, hr, harg, hl, hpl, _, hmap⟩ :=
    get_conversion_signature.loop_of_on_types c.convertTypes_single inputs 0
      (signature_conversion_t.create inputs.length) [] a ha
      (by simp [signature_conversion_t.create])
  have hps2 : a = ps := by simpa using hps
  subst hps2
  refine ⟨r, res, a, by rw [hdef, hr], hty, ?_, by simpa [signature_conversion_t.create] using harg⟩
  have hlen : r.remappedInputs.length = a.length := by
    rw [hl, hpl]
    simp [signature_conversion_t.create]
  unfold signature_conversion_t.recordedTypes
  rw [hlen]
  apply flatMap_range_eq_of_singletons
  intro j hj
  have := hmap j hj
  rw [Nat.zero_add] at this
  rw [this]
  rfl

theorem get_conversion_signature_matches_convert_fn_t_witness :
    convert_fn_t (LLVMTypeConverter sampleInherited sampleGetIdentified).convertTypes
        [.lvalue (.other 32), .pointer (.other 8)] [.other 1] true
      = .returns (some (.llvmFn (.other 1) [.other 32, .llvmPtr (.other 8)] true)) ∧
    ∃ conversion res params,
      get_conversion_signature (LLVMTypeConverter sampleInherited sampleGetIdentified).convertTypes
        ⟨.fn [.lvalue (.other 32), .pointer (.other 8)] [.other 1] true⟩ false
        = .returns (some conversion) ∧
      MType.llvmFn (.other 1) [.other 32, .llvmPtr (.other 8)] true
        = .llvmFn res params true ∧
      conversion.recordedTypes = params ∧
      conversion.argTypes = params :=
  ⟨rfl,
    get_conversion_signature_matches_convert_fn_t
      (LLVMTypeConverter sampleInherited sampleGetIdentified)
      ⟨.fn [.lvalue (.other 32), .pointer (.other 8)] [.other 1] true⟩ false
      [.lvalue (.other 32), .pointer (.other 8)] [.other 1] true
      (.llvmFn (.other 1) [.other 32, .llvmPtr (.other 8)] true) rfl rfl⟩

/-- C22: the result of `get_conversion_signature` does not depend on its
variadic argument: with `variadic = true` and with `variadic = false` it is
the same, absent both times or the same signature. -/
theorem get_conversion_signature_variadic_independent (c : TypeConverter)
    (fn : FunctionOpInterface) :
    get_conversion_signature c.convertTypes fn true
      = get_conversion_signature c.convertTypes fn false ∧
    (∀ variadic variadic2 conversion,
      get_conversion_signature c.convertTypes fn variadic = .returns (some conversion) →
      get_conversion_signature c.convertTypes fn variadic2 = .returns (some conversion)) ∧
    (∀ variadic variadic2,
      get_conversion_signature c.convertTypes fn variadic = .returns none →
      get_conversion_signature c.convertTypes fn variadic2 = .returns none) :=
  ⟨rfl, fun _ _ _ h => h, fun _ _ h => h⟩

/-! ## Memory regions of rank 0 -/

/-- C23 fails on a rank-0 region: for an empty shape there is no last shape
entry, `make_array` reads `shape.back()` all the same, and `convert_memref_type`
returns no result although the element type converts; for a non-empty shape
every read is inside the shape and a result is returned. -/
theorem convert_memref_type_rank_zero :
    ([] : List Int).getLast? = none ∧
    convert_type_to_type (LLVMTypeConverter sampleInherited sampleGetIdentified).convertTypes
      (.other 8) = .returns (some (.other 8)) ∧
    convert_memref_type (LLVMTypeConverter sampleInherited sampleGetIdentified).convertTypes
      [] (.other 8) = .aborts .assertion ∧
    (∀ (c : TypeConverter) (elem E : MType),
      convert_type_to_type c.convertTypes elem = .returns (some E) →
      make_array [] E = .aborts .assertion ∧
      convert_memref_type c.convertTypes [] elem = .aborts .assertion) ∧
    (∀ (c : TypeConverter) (shape : List Int) (elem E : MType), shape ≠ [] →
      convert_type_to_type c.convertTypes elem = .returns (some E) →
      convert_memref_type c.convertTypes shape elem
        = .returns (some (nestedArrayOfShape (shape.map to_unsigned) E))) := by
  refine ⟨rfl, rfl, rfl, fun c elem E hE => ⟨rfl, ?_⟩, fun c shape elem E hne hE => ?_⟩
  · unfold convert_memref_type
    rw [Maybe.chain_present (make_array []) hE]
    rfl
  · unfold convert_memref_type
    rw [Maybe.chain_present (make_array shape) hE, make_array_eq shape E hne]

/-! ## The step graph is acyclic -/

theorem pipeline_step_builder.height_lt_of_edge (a b : pipeline_step_builder)
    (h : b ∈ a.edges) : b.height < a.height := by
  cases a <;> cases b <;> revert h <;> decide

theorem pipeline_step_builder.height_lt_of_reaches {a b : pipeline_step_builder}
    (h : pipeline_step_builder.reaches a b) : b.height < a.height := by
  induction h with
  | edge hab => exact pipeline_step_builder.height_lt_of_edge _ _ hab
  | step hab _ ih =>
    have := pipeline_step_builder.height_lt_of_edge _ _ hab
    omega

/-- C24: the step graph declared by the named pipelines and their leaf passes
is acyclic along `depends_on` and child edges, no step is reachable from
itself; and plan construction for every one of the steps ends with a plan, not
with a rejected cycle, under every traversal bound of at least four. -/
theorem pipeline_steps_acyclic :
    (∀ b : pipeline_step_builder, ¬ pipeline_step_builder.reaches b b) ∧
    (∀ b : pipeline_step_builder, ∃ plan, execution_plan b = .ok plan) ∧
    (∀ (b : pipeline_step_builder) (n : Nat),
      schedule_on (n + 4) [] b ⟨[], []⟩ = schedule_on 18 [] b ⟨[], []⟩) := by
  refine ⟨fun b h => ?_, fun b => ?_, fun b n => ?_⟩
  · have := pipeline_step_builder.height_lt_of_reaches h
    omega
  · cases b <;> exact ⟨_, rfl⟩
  · cases b <;> rfl

/-! ## Enum declarations -/

theorem symbol_table.lookup_append_of_some {α : Type} (name other : String) (v w : α) :
    ∀ table : symbol_table α, symbol_table.lookup table name = some v →
      symbol_table.lookup (table ++ [(other, w)]) name = some v
  | [], h => by cases h
  | (n, u) :: rest, h => by
    simp only [symbol_table.lookup] at h
    simp only [List.cons_append, symbol_table.lookup]
    split
    · next heq => rw [if_pos heq] at h; exact h
    · next hne =>
      rw [if_neg hne] at h
      exact symbol_table.lookup_append_of_some name other v w rest h

theorem symbol_table.lookup_append_eq_some {α : Type} (name other : String) (v w : α) :
    ∀ table : symbol_table α, symbol_table.lookup (table ++ [(other, w)]) name = some v →
      symbol_table.lookup table name = some v ∨ v = w
  | [], h => by
    simp only [List.nil_append, symbol_table.lookup] at h
    split at h
    · simp only [Option.some.injEq] at h
      exact Or.inr h.symm
    · cases h
  | (n, u) :: rest, h => by
    simp only [List.cons_append, symbol_table.lookup] at h
    simp only [symbol_table.lookup]
    split at h
    · next heq => rw [if_pos heq]; exact Or.inl h
    · next hne =>
      rw [if_neg hne]
      exact symbol_table.lookup_append_eq_some name other v w rest h

/-- C25: `declare_enum` always creates a new enum declaration and returns it,
also when the name is registered already; in that case the enum table is left
as it is and still maps the name to the earlier declaration, which is another
declaration than the returned one, every declaration in the table having been
created before; the latter holds at the start and after every `declare_enum`. -/
theorem declare_enum_creates_new (b : CodeGenBuilderMixin) (loc : Location) (name : String)
    (type : MType) (constants : Nat) :
    (declare_enum b loc name type constants).1 = ⟨b.created, loc, name, type, constants⟩ ∧
    (declare_enum b loc name type constants).2.created = b.created + 1 ∧
    (∀ d, symbol_table.lookup b.context.enum_decls name = some d →
      (declare_enum b loc name type constants).2.context.enum_decls = b.context.enum_decls ∧
      symbol_table.lookup (declare_enum b loc name type constants).2.context.enum_decls name
        = some d ∧
      (b.enumDeclsCreated → (declare_enum b loc name type constants).1 ≠ d)) ∧
    emptyCodeGen.enumDeclsCreated ∧
    (b.enumDeclsCreated → (declare_enum b loc name type constants).2.enumDeclsCreated) := by
  have h1 : (declare_enum b loc name type constants).1
      = ⟨b.created, loc, name, type, constants⟩ := by
    simp only [declare_enum, symbol_table.declare]
    cases symbol_table.lookup b.context.enum_decls name <;> rfl
  have h2 : (declare_enum b loc name type constants).2.created = b.created + 1 := by
    simp only [declare_enum, symbol_table.declare]
    cases symbol_table.lookup b.context.enum_decls name <;> rfl
  refine ⟨h1, h2, fun d hd => ?_, ?_, fun hwf => ?_⟩
  · have htable : (declare_enum b loc name type constants).2.context.enum_decls
        = b.context.enum_decls := by
      simp only [declare_enum, symbol_table.declare, hd, CodeGenContext.error]
    refine ⟨htable, by rw [htable]; exact hd, fun hwf hne => ?_⟩
    have hlt := hwf name d hd
    rw [h1] at hne
    rw [← hne] at hlt
    exact Nat.lt_irrefl _ hlt
  · intro n d hd
    cases hd
  · intro n d hd
    rw [h2]
    cases hlook : symbol_table.lookup b.context.enum_decls name with
    | some d0 =>
      have htable : (declare_enum b loc name type constants).2.context.enum_decls
          = b.context.enum_decls := by
        simp only [declare_enum, symbol_table.declare, hlook, CodeGenContext.error]
      rw [htable] at hd
      have := hwf n d hd
      omega
    | none =>
      have htable : (declare_enum b loc name type constants).2.context.enum_decls
          = b.context.enum_decls ++ [(name, ⟨b.created, loc, name, type, constants⟩)] := by
        simp only [declare_enum, symbol_table.declare, hlook]
      rw [htable] at hd
      rcases symbol_table.lookup_append_eq_some n name d _ _ hd with hd2 | hd2
      · have := hwf n d hd2
        omega
      · rw [hd2]
        exact Nat.lt_succ_self _

end vast
